import Mathlib

/-!
Verification of the resilience-and-caching core of the
google-maps-routes-api-wrapper repository: a shallow embedding of
`RetryStrategy` (src/core/retryStrategy.ts), `RateLimiter`
(src/core/rateLimiter.ts), `InMemoryCacheAdapter`
(src/adapters/cache/inMemoryCacheAdapter.ts), `RoutesError` (src/errors.ts)
and the orchestration / cache-key logic of `RoutesClient`
(src/core/routesClient.ts), together with theorems settling the frozen
claims about them.

Modelling conventions: JavaScript timestamps (`Date.now()`) are integers
(milliseconds); JavaScript numbers used for token accounting are rationals;
fallible async operations are sequences of per-invocation outcomes consumed
by the code under test; `Promise` plumbing is sequentialised.
-/

/-- JavaScript `String.prototype.includes` needle check at the head of a
character list (`needle` is a prefix of `hay`). -/
def startsWithChars : List Char → List Char → Bool
  | [], _ => true
  | _ :: _, [] => false
  | a :: as, b :: bs => a == b && startsWithChars as bs

/-- Whether `needle` occurs contiguously anywhere in `hay`
(JavaScript `hay.includes(needle)`). -/
def containsChars (needle : List Char) : List Char → Bool
  | [] => startsWithChars needle []
  | b :: bs => startsWithChars needle (b :: bs) || containsChars needle bs

/-- JavaScript `hay.includes(needle)` on strings. -/
def jsIncludes (hay needle : String) : Bool :=
  containsChars needle.toList hay.toList

/-- Case-insensitive prefix test (used for the `/status.../i` regex scan). -/
def startsWithCI : List Char → List Char → Bool
  | [], _ => true
  | _ :: _, [] => false
  | a :: as, b :: bs => a.toLower == b.toLower && startsWithCI as bs

/-- A JavaScript `Error` value as seen by `RetryStrategy`: its `message`
string and the optional numeric `status` property that `RoutesError`
instances carry. -/
structure JsError where
  message : String
  status : Option Int
deriving DecidableEq, Repr

/-- Configuration of `RetryStrategy` (retryStrategy.ts, `RetryConfig`),
after the constructor has merged the caller's partial config over
`DEFAULT_RETRY_CONFIG`. -/
structure RetryConfig where
  baseMs : ℚ
  factor : ℚ
  maxRetries : ℕ
  maxDelayMs : Option ℚ
  retryableStatusCodes : List Int
  retryOnNetworkError : Bool
deriving DecidableEq, Repr

/-- `DEFAULT_RETRY_CONFIG` from retryStrategy.ts. -/
def DEFAULT_RETRY_CONFIG : RetryConfig where
  baseMs := 1000
  factor := 2
  maxRetries := 3
  maxDelayMs := some 30000
  retryableStatusCodes := [429, 500, 502, 503, 504]
  retryOnNetworkError := true

namespace RetryStrategy

/-- The substring list of `RetryStrategy.isNetworkError`. -/
def networkErrorMessages : List String :=
  ["network", "timeout", "connection", "fetch",
   "ECONNRESET", "ENOTFOUND", "ECONNREFUSED"]

/-- ASCII lowering of a character list (JavaScript `toLowerCase()` on the
ASCII messages this code deals in). -/
def lowerChars (cs : List Char) : List Char := cs.map Char.toLower

/-- `RetryStrategy.isNetworkError`: the message, lowercased, contains one of
the network-failure substrings (each itself lowercased). -/
def isNetworkError (message : String) : Bool :=
  networkErrorMessages.any fun msg =>
    containsChars (lowerChars msg.toList) (lowerChars message.toList)

/-- `RetryStrategy.isHttpError`: the message mentions `status` or `HTTP`, or
the error object carries a `status` property. -/
def isHttpError (e : JsError) : Bool :=
  jsIncludes e.message "status" || jsIncludes e.message "HTTP" || e.status.isSome

/-- Skip the `[:\s]*` part of the status-code regex: drop leading colons and
whitespace. -/
def skipColonWs : List Char → List Char
  | [] => []
  | c :: rest => if c == ':' || c.isWhitespace then skipColonWs rest else c :: rest

/-- Numeric value of a decimal digit character. -/
def digitVal (c : Char) : ℕ := c.toNat - '0'.toNat

/-- The `(\d{3})` part of the status-code regex: three decimal digits at the
head of the list (further digits are ignored by the regex too). -/
def threeDigitsAt : List Char → Option ℕ
  | a :: b :: c :: _ =>
    if a.isDigit && b.isDigit && c.isDigit then
      some (100 * digitVal a + 10 * digitVal b + digitVal c)
    else none
  | _ => none

/-- Leftmost match of the regex `/status[:\s]*(\d{3})/i` used by
`RetryStrategy.extractStatusCode`: scan for a case-insensitive `status`,
skip colons/whitespace, then read three digits; on failure resume the scan
one character later. -/
def findStatusNum : List Char → Option ℕ
  | [] => none
  | b :: bs =>
    if startsWithCI "status".toList (b :: bs) then
      match threeDigitsAt (skipColonWs ((b :: bs).drop 6)) with
      | some n => some n
      | none => findStatusNum bs
    else findStatusNum bs

/-- `RetryStrategy.extractStatusCode`: regex match on the message first,
then the error object's `status` property, else 0 (a falsy `status` of 0
also yields 0). -/
def extractStatusCode (e : JsError) : Int :=
  match findStatusNum e.message.toList with
  | some n => (n : Int)
  | none =>
    match e.status with
    | some s => s
    | none => 0

/-- `RetryStrategy.shouldRetry(error, attempt)`. -/
def shouldRetry (cfg : RetryConfig) (e : JsError) (attempt : ℕ) : Bool :=
  if attempt > cfg.maxRetries then false
  else if cfg.retryOnNetworkError && isNetworkError e.message then true
  else if isHttpError e then cfg.retryableStatusCodes.contains (extractStatusCode e)
  else false

/-- The attempt-independent part of `shouldRetry`: whether the error is
classified retryable (network-level failure, or an HTTP error whose status
code is in `retryableStatusCodes`). -/
def retryableErr (cfg : RetryConfig) (e : JsError) : Bool :=
  (cfg.retryOnNetworkError && isNetworkError e.message) ||
    (isHttpError e && cfg.retryableStatusCodes.contains (extractStatusCode e))

/-- One run of the `while` loop of `RetryStrategy.execute`, starting at the
given value of the `attempt` counter. The wrapped operation is modelled by
the list of outcomes its successive invocations produce; each recursive step
consumes one outcome. Returns the settled result (`none` if the modelled
outcome list was exhausted first), the number of invocations of the
operation, and the number of backoff sleeps performed. -/
def executeGo (cfg : RetryConfig) (attempt : ℕ) :
    List (Except JsError α) → Option (Except JsError α) × ℕ × ℕ
  | [] => (none, 0, 0)
  | o :: rest =>
    match o with
    | .ok v => (some (.ok v), 1, 0)
    | .error e =>
      let attempt1 := attempt + 1
      if !shouldRetry cfg e attempt1 then (some (.error e), 1, 0)
      else if attempt1 > cfg.maxRetries then (some (.error e), 1, 0)
      else
        let r := executeGo cfg attempt1 rest
        (r.1, r.2.1 + 1, r.2.2 + 1)

/-- `RetryStrategy.execute` (the `attempt` counter starts at 0). -/
def execute (cfg : RetryConfig) (outcomes : List (Except JsError α)) :
    Option (Except JsError α) × ℕ × ℕ :=
  executeGo cfg 0 outcomes

theorem shouldRetry_eq_retryableErr (cfg : RetryConfig) (e : JsError) (a : ℕ)
    (h : a ≤ cfg.maxRetries) : shouldRetry cfg e a = retryableErr cfg e := by
  unfold shouldRetry retryableErr
  rw [if_neg (by omega)]
  cases hn : (cfg.retryOnNetworkError && isNetworkError e.message) <;>
    cases hh : isHttpError e <;> simp [hn, hh]

theorem shouldRetry_false_of_not_retryable (cfg : RetryConfig) (e : JsError)
    (a : ℕ) (h : retryableErr cfg e = false) : shouldRetry cfg e a = false := by
  by_cases ha : a ≤ cfg.maxRetries
  · rw [shouldRetry_eq_retryableErr cfg e a ha]; exact h
  · unfold shouldRetry
    rw [if_pos (by omega)]

/-- Consuming a block of retryable errors while attempts remain adds the
block's length to the invocation and sleep counts and continues with the
rest of the outcomes at the advanced attempt counter. -/
theorem executeGo_retryable_block (cfg : RetryConfig) (es : List JsError)
    (tail : List (Except JsError α)) :
    ∀ a : ℕ, a + es.length ≤ cfg.maxRetries →
    (∀ e ∈ es, retryableErr cfg e = true) →
    executeGo cfg a (es.map Except.error ++ tail) =
      ((executeGo cfg (a + es.length) tail).1,
       (executeGo cfg (a + es.length) tail).2.1 + es.length,
       (executeGo cfg (a + es.length) tail).2.2 + es.length) := by
  induction es with
  | nil => intro a _ _; simp
  | cons e es ih =>
    intro a hlen hret
    have he : retryableErr cfg e = true := hret e (by simp)
    have ha1 : a + 1 ≤ cfg.maxRetries := by
      simp only [List.length_cons] at hlen; omega
    have hsr : shouldRetry cfg e (a + 1) = true := by
      rw [shouldRetry_eq_retryableErr cfg e (a + 1) ha1]; exact he
    have hrec := ih (a + 1) (by simp only [List.length_cons] at hlen; omega)
      (fun x hx => hret x (by simp [hx]))
    simp only [List.map_cons, List.cons_append, executeGo, hsr, Bool.not_true,
      Bool.false_eq_true, if_false, if_neg (by omega : ¬ a + 1 > cfg.maxRetries),
      List.append_eq]
    rw [hrec]
    have hidx : a + 1 + es.length = a + (e :: es).length := by
      simp only [List.length_cons]; omega
    rw [hidx]
    simp only [List.length_cons, Prod.mk.injEq]
    exact ⟨trivial, by omega, by omega⟩

theorem executeGo_ok (cfg : RetryConfig) (a : ℕ) (v : α)
    (tail : List (Except JsError α)) :
    executeGo cfg a (Except.ok v :: tail) = (some (Except.ok v), 1, 0) := rfl

theorem executeGo_throw (cfg : RetryConfig) (a : ℕ) (e : JsError)
    (tail : List (Except JsError α)) (h : shouldRetry cfg e (a + 1) = false) :
    executeGo cfg a (Except.error e :: tail) = (some (Except.error e), 1, 0) := by
  simp [executeGo, h]

theorem executeGo_exhaust (cfg : RetryConfig) (es : List JsError)
    (elast : JsError) (rest : List (Except JsError α))
    (hlen : es.length = cfg.maxRetries + 1)
    (hret : ∀ e ∈ es, retryableErr cfg e = true)
    (hlast : es.getLast? = some elast) :
    execute cfg (es.map Except.error ++ rest) =
      (some (Except.error elast), cfg.maxRetries + 1, cfg.maxRetries) := by
  have hne : es ≠ [] := by
    intro h; rw [h] at hlen; simp at hlen
  have hsplit : es.dropLast ++ [es.getLast hne] = es := List.dropLast_append_getLast hne
  have hel : elast = es.getLast hne := by
    rw [List.getLast?_eq_getLast es hne] at hlast
    exact (Option.some.inj hlast).symm
  have hdroplen : es.dropLast.length = cfg.maxRetries := by
    have := List.length_dropLast es
    omega
  have hretd : ∀ e ∈ es.dropLast, retryableErr cfg e = true := fun e he =>
    hret e (List.dropLast_subset es he)
  have hrw : es.map Except.error ++ rest =
      es.dropLast.map Except.error ++ (Except.error (es.getLast hne) :: rest) := by
    conv_lhs => rw [← hsplit]
    simp
  rw [hel]
  unfold execute
  rw [hrw, executeGo_retryable_block cfg es.dropLast _ 0 (by omega) hretd]
  rw [executeGo_throw cfg _ _ rest
    (by unfold shouldRetry; rw [if_pos (by omega)])]
  simp only [hdroplen, Prod.mk.injEq]
  exact ⟨trivial, by omega, by omega⟩

end RetryStrategy

/-- C2: for every N with 0 ≤ N ≤ maxRetries, N retryable failures followed
by a success make `RetryStrategy.execute` invoke the operation exactly N+1
times and return the success (and sleep N times); when the first
maxRetries+1 invocations all fail retryably, it invokes the operation
exactly maxRetries+1 times and rethrows the last error. -/
theorem retry_execute_attempt_counts (cfg : RetryConfig) (es : List JsError)
    (v : ℤ) (rest : List (Except JsError ℤ))
    (hlen : es.length ≤ cfg.maxRetries)
    (hret : ∀ e ∈ es, RetryStrategy.retryableErr cfg e = true) :
    RetryStrategy.execute cfg (es.map Except.error ++ (Except.ok v :: rest)) =
      (some (Except.ok v), es.length + 1, es.length)
    ∧ ∀ es2 : List JsError, ∀ elast : JsError,
        ∀ rest2 : List (Except JsError ℤ),
        es2.length = cfg.maxRetries + 1 →
        (∀ e ∈ es2, RetryStrategy.retryableErr cfg e = true) →
        es2.getLast? = some elast →
        RetryStrategy.execute cfg (es2.map Except.error ++ rest2) =
          (some (Except.error elast), cfg.maxRetries + 1, cfg.maxRetries) := by
  constructor
  · unfold RetryStrategy.execute
    rw [RetryStrategy.executeGo_retryable_block cfg es _ 0 (by omega) hret]
    rw [RetryStrategy.executeGo_ok]
    simp [Nat.add_comm]
  · intro es2 elast rest2 hlen2 hret2 hlast2
    exact RetryStrategy.executeGo_exhaust cfg es2 elast rest2 hlen2 hret2 hlast2

/-- A retryable network-flavoured error used in witnesses. -/
def netErrWitness : JsError := ⟨"connection reset by peer", none⟩

/-- A non-retryable error used in witnesses: no network keyword, no HTTP
status marker, no status property. -/
def plainErrWitness : JsError := ⟨"invalid request payload", none⟩

theorem retry_execute_attempt_counts_witness :
    RetryStrategy.execute DEFAULT_RETRY_CONFIG
        [Except.error netErrWitness, Except.ok (7 : ℤ)] =
      (some (Except.ok 7), 2, 1)
    ∧ RetryStrategy.execute DEFAULT_RETRY_CONFIG
        ((List.replicate 4 netErrWitness).map Except.error ++ ([] : List (Except JsError ℤ))) =
      (some (Except.error netErrWitness), 4, 3) := by
  have h := retry_execute_attempt_counts DEFAULT_RETRY_CONFIG [netErrWitness]
    (7 : ℤ) [] (by decide) (by decide)
  refine ⟨by simpa using h.1, ?_⟩
  simpa using h.2 (List.replicate 4 netErrWitness) netErrWitness []
    (by decide) (by decide) (by decide)

/-- C3: an error not classified retryable is rethrown after exactly one
invocation of the operation with zero backoff sleeps, and the error value
reaching the caller is the original error unchanged; the last error is
likewise propagated unchanged when retries exhaust. -/
theorem retry_nonretryable_rethrow (cfg : RetryConfig) (e : JsError)
    (rest : List (Except JsError ℤ))
    (h : RetryStrategy.retryableErr cfg e = false) :
    RetryStrategy.execute cfg (Except.error e :: rest) =
      (some (Except.error e), 1, 0)
    ∧ ∀ es2 : List JsError, ∀ elast : JsError,
        ∀ rest2 : List (Except JsError ℤ),
        es2.length = cfg.maxRetries + 1 →
        (∀ x ∈ es2, RetryStrategy.retryableErr cfg x = true) →
        es2.getLast? = some elast →
        (RetryStrategy.execute cfg (es2.map Except.error ++ rest2)).1 =
          some (Except.error elast) := by
  constructor
  · unfold RetryStrategy.execute
    exact RetryStrategy.executeGo_throw cfg 0 e rest
      (RetryStrategy.shouldRetry_false_of_not_retryable cfg e 1 h)
  · intro es2 elast rest2 hlen2 hret2 hlast2
    rw [RetryStrategy.executeGo_exhaust cfg es2 elast rest2 hlen2 hret2 hlast2]

theorem retry_nonretryable_rethrow_witness :
    RetryStrategy.execute DEFAULT_RETRY_CONFIG
        (Except.error plainErrWitness :: ([Except.ok (1 : ℤ)])) =
      (some (Except.error plainErrWitness), 1, 0)
    ∧ (RetryStrategy.execute DEFAULT_RETRY_CONFIG
        ((List.replicate 4 netErrWitness).map Except.error ++ ([] : List (Except JsError ℤ)))).1 =
      some (Except.error netErrWitness) := by
  have h := retry_nonretryable_rethrow DEFAULT_RETRY_CONFIG plainErrWitness
    [Except.ok (1 : ℤ)] (by decide)
  refine ⟨h.1, ?_⟩
  simpa using h.2 (List.replicate 4 netErrWitness) netErrWitness []
    (by decide) (by decide) (by decide)

/-- Configuration of the token-bucket `RateLimiter` (rateLimiter.ts,
`RateLimiterConfig`). JavaScript numbers are modelled as rationals,
timestamps as integer milliseconds. -/
structure RateLimiterConfig where
  capacity : ℚ
  refillRate : ℚ
  refillIntervalMs : ℚ
  allowBurst : Bool
deriving DecidableEq, Repr

/-- `DEFAULT_RATE_LIMITER_CONFIG` from rateLimiter.ts. -/
def DEFAULT_RATE_LIMITER_CONFIG : RateLimiterConfig where
  capacity := 10
  refillRate := 1
  refillIntervalMs := 1000
  allowBurst := true

/-- A `Partial<RateLimiterConfig>` as accepted by the constructor and
`updateConfig`. -/
structure RateLimiterPatch where
  capacity : Option ℚ := none
  refillRate : Option ℚ := none
  refillIntervalMs : Option ℚ := none
  allowBurst : Option Bool := none
deriving DecidableEq, Repr

/-- The object-spread merge `{ ...config, ...patch }` used by the
`RateLimiter` constructor and `updateConfig`. -/
def mergeRateLimiterConfig (c : RateLimiterConfig) (p : RateLimiterPatch) :
    RateLimiterConfig where
  capacity := p.capacity.getD c.capacity
  refillRate := p.refillRate.getD c.refillRate
  refillIntervalMs := p.refillIntervalMs.getD c.refillIntervalMs
  allowBurst := p.allowBurst.getD c.allowBurst

/-- The mutable fields of a `RateLimiter` instance: its merged config, the
current `tokens`, and `lastRefill`. The background refill timer carries no
state of its own (its ticks just call `refillTokens`), so it is modelled as
an explicit operation. -/
structure RateLimiterState where
  config : RateLimiterConfig
  tokens : ℚ
  lastRefill : ℤ
deriving DecidableEq, Repr

namespace RateLimiter

/-- The `RateLimiter` constructor: merge the partial config over the
defaults, fill the bucket to capacity, stamp `lastRefill` with now. -/
def init (p : RateLimiterPatch) (now : ℤ) : RateLimiterState :=
  let cfg := mergeRateLimiterConfig DEFAULT_RATE_LIMITER_CONFIG p
  ⟨cfg, cfg.capacity, now⟩

/-- `RateLimiter.refillTokens` (rateLimiter.ts lines 215-226). -/
def refillTokens (now : ℤ) (s : RateLimiterState) : RateLimiterState :=
  let elapsed : ℚ := ((now - s.lastRefill : ℤ) : ℚ)
  if s.config.refillIntervalMs ≤ elapsed then
    let intervalsPassed : ℤ := Rat.floor (elapsed / s.config.refillIntervalMs)
    let tokensToAdd : ℚ := (intervalsPassed : ℚ) * s.config.refillRate
    { s with tokens := min s.config.capacity (s.tokens + tokensToAdd),
             lastRefill := now }
  else s

/-- `RateLimiter.acquire(tokens)`: lazy refill, then consume if enough
tokens are available. -/
def acquire (now : ℤ) (n : ℕ) (s : RateLimiterState) : Bool × RateLimiterState :=
  let s1 := refillTokens now s
  if (n : ℚ) ≤ s1.tokens then (true, { s1 with tokens := s1.tokens - (n : ℚ) })
  else (false, s1)

/-- `RateLimiter.getTokenCount`: triggers a refill, reports the count. -/
def getTokenCount (now : ℤ) (s : RateLimiterState) : ℚ × RateLimiterState :=
  let s1 := refillTokens now s
  (s1.tokens, s1)

/-- `RateLimiter.reset`. -/
def reset (now : ℤ) (s : RateLimiterState) : RateLimiterState :=
  { s with tokens := s.config.capacity, lastRefill := now }

/-- `RateLimiter.updateConfig`: merges the patch into the config (and
restarts the timer, which carries no modelled state). Tokens and the refill
clock are untouched. -/
def updateConfig (p : RateLimiterPatch) (s : RateLimiterState) : RateLimiterState :=
  { s with config := mergeRateLimiterConfig s.config p }

end RateLimiter

/-- The refill algorithm exactly as §4.1 of the spec words it, for
comparison with the source's `RateLimiter.refillTokens`: compute
`elapsed = now - lastRefillTime`; if `elapsed >= refillIntervalMs`, add
`floor(elapsed / refillIntervalMs) * refillRate` tokens capped at
`capacity` and set `lastRefillTime = now` (not
`lastRefillTime + intervalsPassed * interval`); otherwise leave the state
unchanged. -/
def refillTokensSpec (now : ℤ) (s : RateLimiterState) : RateLimiterState :=
  let elapsed : ℚ := ((now - s.lastRefill : ℤ) : ℚ)
  if elapsed < s.config.refillIntervalMs then s
  else
    let intervalsPassed : ℤ := Rat.floor (elapsed / s.config.refillIntervalMs)
    { s with tokens := min s.config.capacity
               (s.tokens + (intervalsPassed : ℚ) * s.config.refillRate),
             lastRefill := now }

/-- C4: the source's refill computation agrees with the spec's description
of it on every state and clock reading — in particular it resets
`lastRefill` to `now`, discarding the fractional remainder of the current
interval, and leaves the state unchanged when `elapsed < refillIntervalMs`. -/
theorem rateLimiter_refill_matches_spec (now : ℤ) (s : RateLimiterState) :
    RateLimiter.refillTokens now s = refillTokensSpec now s := by
  unfold RateLimiter.refillTokens refillTokensSpec
  by_cases h : s.config.refillIntervalMs ≤ ((now - s.lastRefill : ℤ) : ℚ)
  · rw [if_pos h, if_neg (by simpa using h)]
  · rw [if_neg h, if_pos (by simpa using not_le.mp h)]

/-- The operations a caller (or the background timer) can perform on a
`RateLimiter` instance, as listed by the claim: `acquire`, `getTokenCount`,
`reset`, `updateConfig`, and a lazy/timer-driven refill. Each is paired
with the `Date.now()` reading at which it runs. -/
inductive RLOp where
  | acquireOp (n : ℕ)
  | tokenCountOp
  | resetOp
  | updateOp (p : RateLimiterPatch)
  | timerOp
deriving DecidableEq, Repr

/-- State transition of one rate-limiter operation. -/
def rlStep (s : RateLimiterState) : ℤ × RLOp → RateLimiterState
  | (now, .acquireOp n) => (RateLimiter.acquire now n s).2
  | (now, .tokenCountOp) => (RateLimiter.getTokenCount now s).2
  | (now, .resetOp) => RateLimiter.reset now s
  | (_, .updateOp p) => RateLimiter.updateConfig p s
  | (now, .timerOp) => RateLimiter.refillTokens now s

/-- Run a sequence of rate-limiter operations. -/
def rlRun (s : RateLimiterState) (ops : List (ℤ × RLOp)) : RateLimiterState :=
  ops.foldl rlStep s

/-- The claimed invariant: the token count lies in `[0, capacity]` of the
currently configured capacity. -/
def tokensInRange (s : RateLimiterState) : Prop :=
  0 ≤ s.tokens ∧ s.tokens ≤ s.config.capacity

instance (s : RateLimiterState) : Decidable (tokensInRange s) :=
  inferInstanceAs (Decidable (_ ∧ _))

/-- Well-formedness of a rate-limiter configuration: non-negative capacity
and refill rate, positive refill interval. -/
def wfRateLimiterConfig (c : RateLimiterConfig) : Bool :=
  decide (0 ≤ c.capacity) && decide (0 ≤ c.refillRate) && decide (0 < c.refillIntervalMs)

/-- Whether a sequence of operations is benign for the bound claim: each
`updateConfig` keeps the configuration well-formed and does not push the
configured capacity below the token count it finds. -/
def rlOkOps : RateLimiterState → List (ℤ × RLOp) → Bool
  | _, [] => true
  | s, (t, op) :: rest =>
    (match op with
     | .updateOp p =>
       let c := mergeRateLimiterConfig s.config p
       wfRateLimiterConfig c && decide (s.tokens ≤ c.capacity)
     | _ => true) && rlOkOps (rlStep s (t, op)) rest

/-- The patch `updateConfig({ capacity: 5 })`. -/
def lowerCapacityPatch : RateLimiterPatch := { capacity := some 5 }

/-- C5 counterexample: from a freshly constructed default `RateLimiter`
(10 tokens), the single operation `updateConfig({ capacity: 5 })` leaves the
token count at 10, strictly above the newly configured capacity 5 — the
claimed `[0, capacity]` bound fails after that operation completes. -/
theorem rateLimiter_bound_counterexample :
    ¬ tokensInRange (rlRun (RateLimiter.init {} 0) [(0, RLOp.updateOp lowerCapacityPatch)]) := by
  decide

theorem refillTokens_preserves (now : ℤ) (s : RateLimiterState)
    (hwf : wfRateLimiterConfig s.config = true) (h : tokensInRange s) :
    tokensInRange (RateLimiter.refillTokens now s)
      ∧ (RateLimiter.refillTokens now s).config = s.config := by
  simp only [wfRateLimiterConfig, Bool.and_eq_true, decide_eq_true_eq] at hwf
  obtain ⟨⟨hcap, hrate⟩, hint⟩ := hwf
  unfold RateLimiter.refillTokens
  by_cases hc : s.config.refillIntervalMs ≤ ((now - s.lastRefill : ℤ) : ℚ)
  · rw [if_pos hc]
    have hdiv : (1 : ℚ) ≤ ((now - s.lastRefill : ℤ) : ℚ) / s.config.refillIntervalMs :=
      (one_le_div hint).mpr hc
    have hfloor : (1 : ℤ) ≤ Rat.floor (((now - s.lastRefill : ℤ) : ℚ) / s.config.refillIntervalMs) :=
      Rat.le_floor.mpr (by exact_mod_cast hdiv)
    have hadd : 0 ≤ ((Rat.floor (((now - s.lastRefill : ℤ) : ℚ) / s.config.refillIntervalMs) : ℤ) : ℚ)
        * s.config.refillRate := by
      apply mul_nonneg _ hrate
      exact_mod_cast (by omega : (0 : ℤ) ≤ Rat.floor (((now - s.lastRefill : ℤ) : ℚ) / s.config.refillIntervalMs))
    refine ⟨⟨le_min hcap (add_nonneg h.1 hadd), min_le_left _ _⟩, rfl⟩
  · rw [if_neg hc]
    exact ⟨h, rfl⟩

theorem rlStep_preserves (s : RateLimiterState) (o : ℤ × RLOp)
    (hwf : wfRateLimiterConfig s.config = true) (hinv : tokensInRange s)
    (hok : (match o.2 with
            | .updateOp p =>
              let c := mergeRateLimiterConfig s.config p
              wfRateLimiterConfig c && decide (s.tokens ≤ c.capacity)
            | _ => true) = true) :
    tokensInRange (rlStep s o) ∧ wfRateLimiterConfig (rlStep s o).config = true := by
  obtain ⟨t, op⟩ := o
  cases op with
  | acquireOp n =>
    have hr := refillTokens_preserves t s hwf hinv
    simp only [rlStep, RateLimiter.acquire]
    by_cases hn : (n : ℚ) ≤ (RateLimiter.refillTokens t s).tokens
    · rw [if_pos hn]
      refine ⟨⟨by simpa using hn, ?_⟩, by rw [hr.2]; exact hwf⟩
      have : (RateLimiter.refillTokens t s).tokens - (n : ℚ)
          ≤ (RateLimiter.refillTokens t s).tokens := by
        have : (0 : ℚ) ≤ (n : ℚ) := by positivity
        linarith
      calc (RateLimiter.refillTokens t s).tokens - (n : ℚ)
          ≤ (RateLimiter.refillTokens t s).tokens := this
        _ ≤ (RateLimiter.refillTokens t s).config.capacity := hr.1.2
    · rw [if_neg hn]
      exact ⟨hr.1, by rw [hr.2]; exact hwf⟩
  | tokenCountOp =>
    have hr := refillTokens_preserves t s hwf hinv
    simp only [rlStep, RateLimiter.getTokenCount]
    exact ⟨hr.1, by rw [hr.2]; exact hwf⟩
  | resetOp =>
    simp only [wfRateLimiterConfig, Bool.and_eq_true, decide_eq_true_eq] at hwf
    refine ⟨⟨hwf.1.1, le_refl _⟩, ?_⟩
    simp only [rlStep, RateLimiter.reset, wfRateLimiterConfig, Bool.and_eq_true, decide_eq_true_eq]
    exact hwf
  | updateOp p =>
    simp only [Bool.and_eq_true, decide_eq_true_eq] at hok
    exact ⟨⟨hinv.1, hok.2⟩, hok.1⟩
  | timerOp =>
    have hr := refillTokens_preserves t s hwf hinv
    exact ⟨hr.1, by simp only [rlStep]; rw [hr.2]; exact hwf⟩

theorem rlRun_preserves (ops : List (ℤ × RLOp)) :
    ∀ s : RateLimiterState, wfRateLimiterConfig s.config = true →
    tokensInRange s → rlOkOps s ops = true →
    ∀ n : ℕ, tokensInRange (rlRun s (ops.take n)) := by
  induction ops with
  | nil => intro s _ hinv _ n; simpa [rlRun] using hinv
  | cons o rest ih =>
    intro s hwf hinv hok n
    simp only [rlOkOps, Bool.and_eq_true] at hok
    cases n with
    | zero => simpa [rlRun] using hinv
    | succ m =>
      have hstep := rlStep_preserves s o hwf hinv hok.1
      have := ih (rlStep s o) hstep.2 hstep.1 hok.2 m
      simpa [rlRun, List.take_succ_cons] using this

/-- C5 amended: starting from a freshly constructed `RateLimiter` whose
merged configuration is well-formed (non-negative capacity and refill rate,
positive interval), the token count stays within `[0, capacity]` of the
currently configured capacity after each operation of any sequence of
acquire / getTokenCount / reset / updateConfig / refill operations,
provided every `updateConfig` keeps the configuration well-formed and does
not lower the capacity below the token count it finds (the counterexample
shows the bound fails otherwise). -/
theorem rateLimiter_tokens_in_range (p0 : RateLimiterPatch) (t0 : ℤ)
    (ops : List (ℤ × RLOp))
    (hwf0 : wfRateLimiterConfig (mergeRateLimiterConfig DEFAULT_RATE_LIMITER_CONFIG p0) = true)
    (hops : rlOkOps (RateLimiter.init p0 t0) ops = true) :
    ∀ n : ℕ, tokensInRange (rlRun (RateLimiter.init p0 t0) (ops.take n)) := by
  have hinv0 : tokensInRange (RateLimiter.init p0 t0) := by
    simp only [wfRateLimiterConfig, Bool.and_eq_true, decide_eq_true_eq] at hwf0
    exact ⟨hwf0.1.1, le_refl _⟩
  exact rlRun_preserves ops (RateLimiter.init p0 t0) hwf0 hinv0 hops

/-- A concrete benign operation sequence for the C5 witness. -/
def rlOpsWitness : List (ℤ × RLOp) :=
  [(0, RLOp.acquireOp 1), (1500, RLOp.tokenCountOp),
   (2000, RLOp.updateOp { capacity := some 20 }), (2500, RLOp.resetOp),
   (4000, RLOp.timerOp)]

theorem rateLimiter_tokens_in_range_witness :
    tokensInRange (rlRun (RateLimiter.init {} 0) (rlOpsWitness.take 5)) :=
  rateLimiter_tokens_in_range {} 0 rlOpsWitness (by decide)
    (by norm_num [rlOpsWitness, rlOkOps, rlStep, RateLimiter.acquire,
      RateLimiter.refillTokens, RateLimiter.getTokenCount, RateLimiter.reset,
      RateLimiter.updateConfig, mergeRateLimiterConfig, RateLimiter.init,
      wfRateLimiterConfig, DEFAULT_RATE_LIMITER_CONFIG]) 5

/-- A cache entry (cacheAdapter.ts `CacheEntry`). -/
structure CacheEntry (α : Type) where
  value : α
  expiresAt : ℤ
  createdAt : ℤ
deriving DecidableEq, Repr

/-- Cache configuration after the constructor's merge (inMemoryCacheAdapter.ts,
`Required<CacheConfig>`). -/
structure CacheConfig where
  defaultTtlMs : ℤ
  maxEntries : ℕ
  enableStats : Bool
deriving DecidableEq, Repr

/-- `DEFAULT_CACHE_CONFIG` from inMemoryCacheAdapter.ts. -/
def DEFAULT_CACHE_CONFIG : CacheConfig where
  defaultTtlMs := 300000
  maxEntries := 1000
  enableStats := true

/-- A `Partial<CacheConfig>` as accepted by the constructor. -/
structure CacheConfigPatch where
  defaultTtlMs : Option ℤ := none
  maxEntries : Option ℕ := none
  enableStats : Option Bool := none
deriving DecidableEq, Repr

/-- The spread merge `{ ...DEFAULT_CACHE_CONFIG, ...config }`. -/
def mergeCacheConfig (c : CacheConfig) (p : CacheConfigPatch) : CacheConfig where
  defaultTtlMs := p.defaultTtlMs.getD c.defaultTtlMs
  maxEntries := p.maxEntries.getD c.maxEntries
  enableStats := p.enableStats.getD c.enableStats

/-- The JavaScript `Map` backing the cache, as an insertion-ordered
association list with unique keys: `Map.get`. -/
def mapGet (st : List (String × CacheEntry α)) (k : String) : Option (CacheEntry α) :=
  (st.find? fun p => p.1 == k).map Prod.snd

/-- `Map.set`: update in place if the key is present (keeping its position),
else append at the end. -/
def mapSet (st : List (String × CacheEntry α)) (k : String) (e : CacheEntry α) :
    List (String × CacheEntry α) :=
  if st.any (fun p => p.1 == k) then
    st.map fun p => if p.1 == k then (k, e) else p
  else st ++ [(k, e)]

/-- `Map.delete`: remove the key, preserving the order of the others. -/
def mapDelete (st : List (String × CacheEntry α)) (k : String) :
    List (String × CacheEntry α) :=
  st.filter fun p => !(p.1 == k)

/-- The state of an `InMemoryCacheAdapter` instance: the backing map, the
merged config, and the stats counters. The cleanup timer holds no state of
its own (its ticks call `cleanupExpiredEntries`), so sweeps are modelled as
explicit operations. -/
structure CacheState (α : Type) where
  store : List (String × CacheEntry α)
  config : CacheConfig
  hitCount : ℕ
  missCount : ℕ
  expiredCount : ℕ
deriving DecidableEq, Repr

namespace InMemoryCacheAdapter

/-- The constructor: merge the partial config over the defaults, empty
store, zeroed stats. -/
def init (p : CacheConfigPatch) : CacheState α :=
  ⟨[], mergeCacheConfig DEFAULT_CACHE_CONFIG p, 0, 0, 0⟩

/-- `InMemoryCacheAdapter.get` (lines 37-62): absent ⇒ miss; present but
`Date.now() > entry.expiresAt` ⇒ delete, expired + miss; else hit and the
value. Stats counters move only when `enableStats` is set. -/
def get (now : ℤ) (k : String) (st : CacheState α) : Option α × CacheState α :=
  match mapGet st.store k with
  | none =>
    (none, if st.config.enableStats then { st with missCount := st.missCount + 1 } else st)
  | some e =>
    if now > e.expiresAt then
      let st1 := { st with store := mapDelete st.store k }
      (none, if st.config.enableStats then
               { st1 with expiredCount := st1.expiredCount + 1,
                          missCount := st1.missCount + 1 }
             else st1)
    else
      (some e.value,
       if st.config.enableStats then { st with hitCount := st.hitCount + 1 } else st)

/-- The linear scan of `evictOldestEntry` (lines 220-234): `oldestTime`
starts at `Date.now()` and is lowered on every strictly smaller
`createdAt`. -/
def foldOldest (acc : Option String × ℤ) :
    List (String × CacheEntry α) → Option String × ℤ
  | [] => acc
  | p :: rest =>
    foldOldest (if p.2.createdAt < acc.2 then (some p.1, p.2.createdAt) else acc) rest

/-- The key selected by `evictOldestEntry`'s scan, if any. -/
def findOldestKey (now : ℤ) (st : List (String × CacheEntry α)) : Option String :=
  (foldOldest ((none : Option String), now) st).1

/-- `InMemoryCacheAdapter.evictOldestEntry`: delete the selected key; if the
scan selected nothing (no entry strictly older than `now`), delete nothing. -/
def evictOldestEntry (now : ℤ) (st : List (String × CacheEntry α)) :
    List (String × CacheEntry α) :=
  match findOldestKey now st with
  | some k => mapDelete st k
  | none => st

/-- `InMemoryCacheAdapter.set` (lines 67-81): evict if
`maxEntries && size >= maxEntries` (a `maxEntries` of 0 is falsy), then
insert with `createdAt = now`, `expiresAt = now + ttlMs`. -/
def set (now : ℤ) (k : String) (v : α) (ttl : ℤ) (st : CacheState α) : CacheState α :=
  let store1 :=
    if decide (st.config.maxEntries ≠ 0) && decide (st.store.length ≥ st.config.maxEntries) then
      evictOldestEntry now st.store
    else st.store
  { st with store := mapSet store1 k ⟨v, now + ttl, now⟩ }

/-- `InMemoryCacheAdapter.del`. -/
def del (k : String) (st : CacheState α) : CacheState α :=
  { st with store := mapDelete st.store k }

/-- `InMemoryCacheAdapter.has` (lines 93-110): like `get`'s expiry check,
counting only expiries, never hits or misses. -/
def has (now : ℤ) (k : String) (st : CacheState α) : Bool × CacheState α :=
  match mapGet st.store k with
  | none => (false, st)
  | some e =>
    if now > e.expiresAt then
      let st1 := { st with store := mapDelete st.store k }
      (false, if st.config.enableStats then
                { st1 with expiredCount := st1.expiredCount + 1 }
              else st1)
    else (true, st)

/-- `InMemoryCacheAdapter.clear`: empty the store, and reset the counters
when stats are enabled. -/
def clear (st : CacheState α) : CacheState α :=
  if st.config.enableStats then
    { st with store := [], hitCount := 0, missCount := 0, expiredCount := 0 }
  else { st with store := [] }

/-- `InMemoryCacheAdapter.cleanupExpiredEntries`: the periodic sweep removes
every entry with `now > expiresAt`, bumping `expiredCount` once per removal
when stats are enabled. -/
def cleanupExpiredEntries (now : ℤ) (st : CacheState α) : CacheState α :=
  let expired := st.store.filter fun p => decide (p.2.expiresAt < now)
  { st with store := st.store.filter fun p => !decide (p.2.expiresAt < now),
            expiredCount :=
              if st.config.enableStats then st.expiredCount + expired.length
              else st.expiredCount }

end InMemoryCacheAdapter

/-- `get` exactly as §4.3 of the spec words it, for comparison with the
source's `InMemoryCacheAdapter.get`: if the entry is absent, count a miss
and return the absent marker; if present but `now > expiresAt`, remove it,
count an expiry and a miss (exactly one each), and return the absent
marker; otherwise count a hit and return the stored value — counting only
when stats are enabled. -/
def cacheGetSpec (now : ℤ) (k : String) (st : CacheState α) :
    Option α × CacheState α :=
  match mapGet st.store k with
  | none =>
    if st.config.enableStats then
      (none, { st with missCount := st.missCount + 1 })
    else (none, st)
  | some e =>
    if now > e.expiresAt then
      if st.config.enableStats then
        (none, { st with store := mapDelete st.store k,
                         expiredCount := st.expiredCount + 1,
                         missCount := st.missCount + 1 })
      else (none, { st with store := mapDelete st.store k })
    else
      if st.config.enableStats then
        (some e.value, { st with hitCount := st.hitCount + 1 })
      else (some e.value, st)

/-- C9: the source's `get` behaves exactly as the spec describes on every
state, key, and clock reading — in particular an expired read removes the
entry and increments `expiredCount` by exactly one (plus one miss), and
stats move only when enabled. -/
theorem cache_get_matches_spec (α : Type) (now : ℤ) (k : String)
    (st : CacheState α) :
    InMemoryCacheAdapter.get now k st = cacheGetSpec now k st := by
  unfold InMemoryCacheAdapter.get cacheGetSpec
  cases mapGet st.store k with
  | none =>
    by_cases hs : st.config.enableStats = true <;> simp [hs]
  | some e =>
    by_cases he : now > e.expiresAt <;>
      by_cases hs : st.config.enableStats = true <;> simp [he, hs]

theorem mem_of_mem_mapDelete {st : List (String × CacheEntry α)} {k : String}
    {q : String × CacheEntry α} (h : q ∈ mapDelete st k) : q ∈ st :=
  List.mem_of_mem_filter h

theorem length_mapDelete_le (st : List (String × CacheEntry α)) (k : String) :
    (mapDelete st k).length ≤ st.length :=
  List.length_filter_le _ st

theorem length_mapDelete_lt (st : List (String × CacheEntry α)) (k : String)
    (h : k ∈ st.map Prod.fst) : (mapDelete st k).length < st.length := by
  apply List.length_filter_lt_length_iff_exists.mpr
  obtain ⟨p, hp, hpk⟩ := List.mem_map.mp h
  exact ⟨p, hp, by simp [hpk]⟩

theorem anyKey_iff (st : List (String × CacheEntry α)) (k : String) :
    (st.any fun p => p.1 == k) = true ↔ k ∈ st.map Prod.fst := by
  simp [List.any_eq_true, List.mem_map]

theorem mem_mapSet {st : List (String × CacheEntry α)} {k : String}
    {e : CacheEntry α} {q : String × CacheEntry α} (h : q ∈ mapSet st k e) :
    q = (k, e) ∨ q ∈ st := by
  unfold mapSet at h
  by_cases ha : (st.any fun p => p.1 == k) = true
  · rw [if_pos ha] at h
    obtain ⟨p, hp, hq⟩ := List.mem_map.mp h
    by_cases hpk : (p.1 == k) = true
    · left; rw [← hq]; simp [hpk]
    · right; rw [← hq]; simp [hpk]; exact hp
  · rw [if_neg ha] at h
    rcases List.mem_append.mp h with h1 | h1
    · right; exact h1
    · left; simpa using h1

theorem length_mapSet_le (st : List (String × CacheEntry α)) (k : String)
    (e : CacheEntry α) : (mapSet st k e).length ≤ st.length + 1 := by
  unfold mapSet
  by_cases ha : (st.any fun p => p.1 == k) = true
  · rw [if_pos ha]; simp
  · rw [if_neg ha]; simp

theorem length_mapSet_of_mem (st : List (String × CacheEntry α)) (k : String)
    (e : CacheEntry α) (h : k ∈ st.map Prod.fst) :
    (mapSet st k e).length = st.length := by
  unfold mapSet
  rw [if_pos ((anyKey_iff st k).mpr h)]
  simp

theorem mapSet_of_not_mem (st : List (String × CacheEntry α)) (k : String)
    (e : CacheEntry α) (h : ¬ k ∈ st.map Prod.fst) :
    mapSet st k e = st ++ [(k, e)] := by
  unfold mapSet
  rw [if_neg (fun ha => h ((anyKey_iff st k).mp ha))]

theorem foldOldest_cases (st : List (String × CacheEntry α)) :
    ∀ acc : Option String × ℤ,
      InMemoryCacheAdapter.foldOldest acc st = acc ∨
      ∃ p ∈ st, InMemoryCacheAdapter.foldOldest acc st = (some p.1, p.2.createdAt) := by
  induction st with
  | nil => intro acc; left; rfl
  | cons p rest ih =>
    intro acc
    unfold InMemoryCacheAdapter.foldOldest
    by_cases hp : p.2.createdAt < acc.2
    · rw [if_pos hp]
      rcases ih (some p.1, p.2.createdAt) with h | ⟨q, hq, h⟩
      · right; exact ⟨p, by simp, h⟩
      · right; exact ⟨q, by simp [hq], h⟩
    · rw [if_neg hp]
      rcases ih acc with h | ⟨q, hq, h⟩
      · left; exact h
      · right; exact ⟨q, by simp [hq], h⟩

theorem foldOldest_snd_le (st : List (String × CacheEntry α)) :
    ∀ acc : Option String × ℤ,
      (InMemoryCacheAdapter.foldOldest acc st).2 ≤ acc.2 ∧
      ∀ p ∈ st, (InMemoryCacheAdapter.foldOldest acc st).2 ≤ p.2.createdAt := by
  induction st with
  | nil => intro acc; exact ⟨le_refl _, by simp⟩
  | cons p rest ih =>
    intro acc
    unfold InMemoryCacheAdapter.foldOldest
    by_cases hp : p.2.createdAt < acc.2
    · rw [if_pos hp]
      obtain ⟨h1, h2⟩ := ih (some p.1, p.2.createdAt)
      refine ⟨le_trans h1 (le_of_lt hp), ?_⟩
      intro q hq
      rcases List.mem_cons.mp hq with hq1 | hq1
      · rw [hq1]; exact h1
      · exact h2 q hq1
    · rw [if_neg hp]
      obtain ⟨h1, h2⟩ := ih acc
      refine ⟨h1, ?_⟩
      intro q hq
      rcases List.mem_cons.mp hq with hq1 | hq1
      · rw [hq1]; exact le_trans h1 (not_lt.mp hp)
      · exact h2 q hq1

theorem findOldestKey_isSome (now : ℤ) (st : List (String × CacheEntry α))
    (h : ∃ p ∈ st, p.2.createdAt < now) :
    ∃ k0, InMemoryCacheAdapter.findOldestKey now st = some k0 ∧
      k0 ∈ st.map Prod.fst := by
  obtain ⟨p0, hp0, hlt⟩ := h
  rcases foldOldest_cases st ((none : Option String), now) with hc | ⟨q, hq, hc⟩
  · exfalso
    have := (foldOldest_snd_le st ((none : Option String), now)).2 p0 hp0
    rw [hc] at this
    exact absurd hlt (not_lt.mpr this)
  · exact ⟨q.1, by unfold InMemoryCacheAdapter.findOldestKey; rw [hc],
      List.mem_map.mpr ⟨q, hq, rfl⟩⟩

theorem foldOldest_no_change (st : List (String × CacheEntry α)) :
    ∀ acc : Option String × ℤ, (∀ p ∈ st, ¬ p.2.createdAt < acc.2) →
      InMemoryCacheAdapter.foldOldest acc st = acc := by
  induction st with
  | nil => intro acc _; rfl
  | cons p rest ih =>
    intro acc h
    unfold InMemoryCacheAdapter.foldOldest
    rw [if_neg (h p (by simp))]
    exact ih acc fun q hq => h q (by simp [hq])

theorem foldOldest_stays_above (st : List (String × CacheEntry α)) (m : ℤ) :
    ∀ acc : Option String × ℤ, m < acc.2 → (∀ p ∈ st, m < p.2.createdAt) →
      m < (InMemoryCacheAdapter.foldOldest acc st).2 := by
  induction st with
  | nil => intro acc hacc _; exact hacc
  | cons p rest ih =>
    intro acc hacc h
    unfold InMemoryCacheAdapter.foldOldest
    by_cases hp : p.2.createdAt < acc.2
    · rw [if_pos hp]
      exact ih (some p.1, p.2.createdAt) (h p (by simp)) fun q hq => h q (by simp [hq])
    · rw [if_neg hp]
      exact ih acc hacc fun q hq => h q (by simp [hq])

theorem foldOldest_append (xs ys : List (String × CacheEntry α)) :
    ∀ acc : Option String × ℤ,
      InMemoryCacheAdapter.foldOldest acc (xs ++ ys) =
        InMemoryCacheAdapter.foldOldest (InMemoryCacheAdapter.foldOldest acc xs) ys := by
  induction xs with
  | nil => intro acc; rfl
  | cons p rest ih =>
    intro acc
    simp only [List.cons_append, InMemoryCacheAdapter.foldOldest]
    exact ih _

theorem findOldestKey_unique_min (now : ℤ) (pre post : List (String × CacheEntry α))
    (k0 : String) (e0 : CacheEntry α) (hnow : e0.createdAt < now)
    (hmin : ∀ p ∈ pre ++ post, e0.createdAt < p.2.createdAt) :
    InMemoryCacheAdapter.findOldestKey now (pre ++ (k0, e0) :: post) = some k0 := by
  have hpre : ∀ p ∈ pre, e0.createdAt < p.2.createdAt :=
    fun p hp => hmin p (List.mem_append.mpr (Or.inl hp))
  have hpost : ∀ p ∈ post, e0.createdAt < p.2.createdAt :=
    fun p hp => hmin p (List.mem_append.mpr (Or.inr hp))
  unfold InMemoryCacheAdapter.findOldestKey
  rw [foldOldest_append]
  have hacc1 : e0.createdAt <
      (InMemoryCacheAdapter.foldOldest ((none : Option String), now) pre).2 :=
    foldOldest_stays_above pre e0.createdAt _ hnow hpre
  unfold InMemoryCacheAdapter.foldOldest
  rw [if_pos hacc1]
  rw [foldOldest_no_change post (some k0, e0.createdAt)
    (fun p hp => not_lt.mpr (le_of_lt (hpost p hp)))]

theorem mapGet_eq_none_iff (st : List (String × CacheEntry α)) (k : String) :
    mapGet st k = none ↔ k ∉ st.map Prod.fst := by
  unfold mapGet
  rw [Option.map_eq_none', List.find?_eq_none]
  constructor
  · intro h hk
    obtain ⟨p, hp, hpk⟩ := List.mem_map.mp hk
    exact absurd (show (p.1 == k) = true by simpa using hpk) (h p hp)
  · intro h p hp hx
    exact h (List.mem_map.mpr ⟨p, hp, by simpa using hx⟩)

theorem mapGet_of_nodup (st : List (String × CacheEntry α)) (k : String)
    (e : CacheEntry α) (hnd : (st.map Prod.fst).Nodup) (hmem : (k, e) ∈ st) :
    mapGet st k = some e := by
  induction st with
  | nil => simp at hmem
  | cons p rest ih =>
    rcases List.mem_cons.mp hmem with h1 | h1
    · rw [← h1]
      simp [mapGet, List.find?_cons]
    · have hk : k ∈ rest.map Prod.fst := List.mem_map.mpr ⟨(k, e), h1, rfl⟩
      have hne : (p.1 == k) = false := by
        simp only [List.map_cons, List.nodup_cons] at hnd
        have : p.1 ≠ k := fun hx => hnd.1 (hx ▸ hk)
        simpa using this
      have := ih (by simp only [List.map_cons, List.nodup_cons] at hnd; exact hnd.2) h1
      simpa [mapGet, List.find?_cons, hne] using this

theorem mapDelete_eq_of_all_ne (st : List (String × CacheEntry α)) (k : String)
    (h : ∀ p ∈ st, p.1 ≠ k) : mapDelete st k = st := by
  unfold mapDelete
  apply List.filter_eq_self.mpr
  intro p hp
  simpa using h p hp

theorem mapDelete_middle (pre post : List (String × CacheEntry α)) (k0 : String)
    (e0 : CacheEntry α) (hpre : ∀ p ∈ pre, p.1 ≠ k0) (hpost : ∀ p ∈ post, p.1 ≠ k0) :
    mapDelete (pre ++ (k0, e0) :: post) k0 = pre ++ post := by
  unfold mapDelete
  rw [List.filter_append, List.filter_cons]
  have h0 : (!((k0, e0).1 == k0)) = false := by simp
  rw [h0]
  simp only [Bool.false_eq_true, if_false]
  rw [show (pre.filter fun p => !(p.1 == k0)) = pre from
        List.filter_eq_self.mpr fun p hp => by simpa using hpre p hp,
      show (post.filter fun p => !(p.1 == k0)) = post from
        List.filter_eq_self.mpr fun p hp => by simpa using hpost p hp]

theorem mapSet_cons_ne (p : String × CacheEntry α)
    (rest : List (String × CacheEntry α)) (k : String) (e : CacheEntry α)
    (hp : (p.1 == k) = false) :
    mapSet (p :: rest) k e = p :: mapSet rest k e := by
  have hne : ¬ p.1 = k := by simpa using hp
  unfold mapSet
  by_cases ha : (rest.any fun q => q.1 == k) = true
  · simp [List.any_cons, hp, ha, hne]
  · simp only [Bool.not_eq_true] at ha
    simp [List.any_cons, hp, ha, hne]

theorem mapGet_mapSet_self (st : List (String × CacheEntry α)) (k : String)
    (e : CacheEntry α) : mapGet (mapSet st k e) k = some e := by
  induction st with
  | nil => simp [mapSet, mapGet, List.find?_cons]
  | cons p rest ih =>
    by_cases hp : (p.1 == k) = true
    · have hpe : p.1 = k := by simpa using hp
      unfold mapSet
      simp only [List.any_cons, hp, Bool.true_or, if_pos]
      simp [mapGet, List.find?_cons, hpe]
    · rw [mapSet_cons_ne p rest k e (by simpa using hp)]
      simpa [mapGet, List.find?_cons, hp] using ih

/-- Operations a caller (or the sweep timer) can perform on an
`InMemoryCacheAdapter`: get / set (with optional explicit TTL) / del / has /
clear / the periodic expired-entry sweep, each paired with its `Date.now()`
reading. -/
inductive CacheOp (α : Type) where
  | getOp (k : String)
  | setOp (k : String) (v : α) (ttl : Option ℤ)
  | delOp (k : String)
  | hasOp (k : String)
  | clearOp
  | cleanupOp
deriving DecidableEq, Repr

/-- State transition of one cache operation (`ttl` of `none` means the
caller omitted `ttlMs`, so the config default applies). -/
def cacheStep (st : CacheState α) : ℤ × CacheOp α → CacheState α
  | (now, .getOp k) => (InMemoryCacheAdapter.get now k st).2
  | (now, .setOp k v ttl) =>
    InMemoryCacheAdapter.set now k v (ttl.getD st.config.defaultTtlMs) st
  | (_, .delOp k) => InMemoryCacheAdapter.del k st
  | (now, .hasOp k) => (InMemoryCacheAdapter.has now k st).2
  | (_, .clearOp) => InMemoryCacheAdapter.clear st
  | (now, .cleanupOp) => InMemoryCacheAdapter.cleanupExpiredEntries now st

/-- Run a sequence of cache operations. -/
def cacheRun (st : CacheState α) (ops : List (ℤ × CacheOp α)) : CacheState α :=
  ops.foldl cacheStep st

/-- Strictly ascending sequence of timestamps, all after `t`. -/
def ascendingFrom (t : ℤ) : List ℤ → Bool
  | [] => true
  | x :: xs => decide (t < x) && ascendingFrom x xs

theorem ascendingFrom_lt_all (xs : List ℤ) :
    ∀ t : ℤ, ascendingFrom t xs = true → ∀ x ∈ xs, t < x := by
  induction xs with
  | nil => intro t _ x hx; simp at hx
  | cons y ys ih =>
    intro t h x hx
    simp only [ascendingFrom, Bool.and_eq_true, decide_eq_true_eq] at h
    rcases List.mem_cons.mp hx with h1 | h1
    · rw [h1]; exact h.1
    · exact lt_trans h.1 (ih y h.2 x h1)

theorem mem_of_mem_evictOldest {st : List (String × CacheEntry α)} {now : ℤ}
    {q : String × CacheEntry α}
    (h : q ∈ InMemoryCacheAdapter.evictOldestEntry now st) : q ∈ st := by
  unfold InMemoryCacheAdapter.evictOldestEntry at h
  cases hf : InMemoryCacheAdapter.findOldestKey now st with
  | none => rw [hf] at h; exact h
  | some k => rw [hf] at h; exact mem_of_mem_mapDelete h

theorem get_snd_spec (now : ℤ) (k : String) (st : CacheState α) :
    (InMemoryCacheAdapter.get now k st).2.config = st.config ∧
    ((InMemoryCacheAdapter.get now k st).2.store = st.store ∨
     (InMemoryCacheAdapter.get now k st).2.store = mapDelete st.store k) := by
  unfold InMemoryCacheAdapter.get
  cases mapGet st.store k with
  | none =>
    refine ⟨?_, Or.inl ?_⟩ <;> dsimp only <;> split <;> rfl
  | some e =>
    dsimp only
    by_cases he : now > e.expiresAt
    · rw [if_pos he]
      refine ⟨?_, Or.inr ?_⟩ <;> dsimp only <;> split <;> rfl
    · rw [if_neg he]
      refine ⟨?_, Or.inl ?_⟩ <;> dsimp only <;> split <;> rfl

theorem has_snd_spec (now : ℤ) (k : String) (st : CacheState α) :
    (InMemoryCacheAdapter.has now k st).2.config = st.config ∧
    ((InMemoryCacheAdapter.has now k st).2.store = st.store ∨
     (InMemoryCacheAdapter.has now k st).2.store = mapDelete st.store k) := by
  unfold InMemoryCacheAdapter.has
  cases mapGet st.store k with
  | none => exact ⟨rfl, Or.inl rfl⟩
  | some e =>
    dsimp only
    by_cases he : now > e.expiresAt
    · rw [if_pos he]
      refine ⟨?_, Or.inr ?_⟩ <;> dsimp only <;> split <;> rfl
    · rw [if_neg he]
      exact ⟨rfl, Or.inl rfl⟩

theorem clear_spec (st : CacheState α) :
    (InMemoryCacheAdapter.clear st).config = st.config ∧
    (InMemoryCacheAdapter.clear st).store = [] := by
  unfold InMemoryCacheAdapter.clear
  split <;> exact ⟨rfl, rfl⟩

theorem cacheStep_preserves (st : CacheState α) (t now : ℤ) (op : CacheOp α)
    (hmax : 1 ≤ st.config.maxEntries)
    (hlen : st.store.length ≤ st.config.maxEntries)
    (hbef : ∀ q ∈ st.store, q.2.createdAt ≤ t) (ht : t < now) :
    (cacheStep st (now, op)).config = st.config ∧
    (cacheStep st (now, op)).store.length ≤ st.config.maxEntries ∧
    ∀ q ∈ (cacheStep st (now, op)).store, q.2.createdAt ≤ now := by
  have hold : ∀ q ∈ st.store, q.2.createdAt ≤ now :=
    fun q hq => le_trans (hbef q hq) (le_of_lt ht)
  cases op with
  | getOp k =>
    obtain ⟨hc, hs⟩ := get_snd_spec now k st
    refine ⟨hc, ?_, ?_⟩
    · show (InMemoryCacheAdapter.get now k st).2.store.length ≤ st.config.maxEntries
      rcases hs with hs | hs <;> rw [hs]
      · exact hlen
      · exact le_trans (length_mapDelete_le _ _) hlen
    · show ∀ q ∈ (InMemoryCacheAdapter.get now k st).2.store, q.2.createdAt ≤ now
      rcases hs with hs | hs <;> rw [hs]
      · exact hold
      · exact fun q hq => hold q (mem_of_mem_mapDelete hq)
  | setOp k v ttl =>
    have hstep : cacheStep st (now, CacheOp.setOp k v ttl) =
        InMemoryCacheAdapter.set now k v (ttl.getD st.config.defaultTtlMs) st := rfl
    by_cases hcond : (decide (st.config.maxEntries ≠ 0) &&
        decide (st.store.length ≥ st.config.maxEntries)) = true
    · have hset : InMemoryCacheAdapter.set now k v (ttl.getD st.config.defaultTtlMs) st =
          { st with store := mapSet (InMemoryCacheAdapter.evictOldestEntry now st.store) k (CacheEntry.mk v (now + ttl.getD st.config.defaultTtlMs) now) } := by
        simp only [InMemoryCacheAdapter.set]
        rw [if_pos hcond]
      simp only [Bool.and_eq_true, decide_eq_true_eq] at hcond
      have hne : st.store ≠ [] := by
        intro h0
        rw [h0] at hcond
        simp only [List.length_nil] at hcond
        omega
      obtain ⟨q0, hq0⟩ := List.exists_mem_of_ne_nil st.store hne
      obtain ⟨k0, hk0, hk0mem⟩ := findOldestKey_isSome now st.store
        ⟨q0, hq0, lt_of_le_of_lt (hbef q0 hq0) ht⟩
      have hev : InMemoryCacheAdapter.evictOldestEntry now st.store =
          mapDelete st.store k0 := by
        unfold InMemoryCacheAdapter.evictOldestEntry
        rw [hk0]
      have hevlen : (InMemoryCacheAdapter.evictOldestEntry now st.store).length
          < st.store.length := by
        rw [hev]; exact length_mapDelete_lt st.store k0 hk0mem
      rw [hstep, hset]
      refine ⟨rfl, ?_, ?_⟩
      · calc (mapSet (InMemoryCacheAdapter.evictOldestEntry now st.store) k
              ⟨v, now + ttl.getD st.config.defaultTtlMs, now⟩).length
            ≤ (InMemoryCacheAdapter.evictOldestEntry now st.store).length + 1 :=
              length_mapSet_le _ _ _
          _ ≤ st.store.length := by omega
          _ ≤ st.config.maxEntries := hlen
      · intro q hq
        rcases mem_mapSet hq with hq1 | hq1
        · rw [hq1]
        · exact hold q (mem_of_mem_evictOldest hq1)
    · have hset : InMemoryCacheAdapter.set now k v (ttl.getD st.config.defaultTtlMs) st =
          { st with store := mapSet st.store k (CacheEntry.mk v (now + ttl.getD st.config.defaultTtlMs) now) } := by
        simp only [InMemoryCacheAdapter.set]
        rw [if_neg hcond]
      have hlt : st.store.length < st.config.maxEntries := by
        simp only [Bool.and_eq_true, decide_eq_true_eq, not_and_or] at hcond
        rcases hcond with h | h
        · omega
        · omega
      rw [hstep, hset]
      refine ⟨rfl, ?_, ?_⟩
      · calc (mapSet st.store k ⟨v, now + ttl.getD st.config.defaultTtlMs, now⟩).length
            ≤ st.store.length + 1 := length_mapSet_le _ _ _
          _ ≤ st.config.maxEntries := by omega
      · intro q hq
        rcases mem_mapSet hq with hq1 | hq1
        · rw [hq1]
        · exact hold q hq1
  | delOp k =>
    refine ⟨rfl, ?_, ?_⟩
    · show (mapDelete st.store k).length ≤ st.config.maxEntries
      exact le_trans (length_mapDelete_le _ _) hlen
    · intro q hq
      exact hold q (mem_of_mem_mapDelete hq)
  | hasOp k =>
    obtain ⟨hc, hs⟩ := has_snd_spec now k st
    refine ⟨hc, ?_, ?_⟩
    · show (InMemoryCacheAdapter.has now k st).2.store.length ≤ st.config.maxEntries
      rcases hs with hs | hs <;> rw [hs]
      · exact hlen
      · exact le_trans (length_mapDelete_le _ _) hlen
    · show ∀ q ∈ (InMemoryCacheAdapter.has now k st).2.store, q.2.createdAt ≤ now
      rcases hs with hs | hs <;> rw [hs]
      · exact hold
      · exact fun q hq => hold q (mem_of_mem_mapDelete hq)
  | clearOp =>
    obtain ⟨hc, hs⟩ := clear_spec st
    refine ⟨hc, ?_, ?_⟩
    · show (InMemoryCacheAdapter.clear st).store.length ≤ st.config.maxEntries
      rw [hs]; simp
    · show ∀ q ∈ (InMemoryCacheAdapter.clear st).store, q.2.createdAt ≤ now
      rw [hs]; simp
  | cleanupOp =>
    refine ⟨rfl, ?_, ?_⟩
    · show (st.store.filter fun p => !decide (p.2.expiresAt < now)).length
          ≤ st.config.maxEntries
      exact le_trans (List.length_filter_le _ _) hlen
    · intro q hq
      exact hold q (List.mem_of_mem_filter hq)

theorem cacheRun_size_invariant (ops : List (ℤ × CacheOp α)) :
    ∀ (st : CacheState α) (t : ℤ), 1 ≤ st.config.maxEntries →
    st.store.length ≤ st.config.maxEntries →
    (∀ q ∈ st.store, q.2.createdAt ≤ t) →
    ascendingFrom t (ops.map Prod.fst) = true →
    ∀ n : ℕ, (cacheRun st (ops.take n)).store.length ≤ st.config.maxEntries := by
  induction ops with
  | nil =>
    intro st t _ hlen _ _ n
    simpa [cacheRun] using hlen
  | cons o rest ih =>
    intro st t hmax hlen hbef hasc n
    obtain ⟨now, op⟩ := o
    simp only [List.map_cons, ascendingFrom, Bool.and_eq_true, decide_eq_true_eq] at hasc
    cases n with
    | zero => simpa [cacheRun] using hlen
    | succ m =>
      obtain ⟨hc, hl, hb⟩ := cacheStep_preserves st t now op hmax hlen hbef hasc.1
      have := ih (cacheStep st (now, op)) now (by rw [hc]; exact hmax)
        (by rw [hc]; exact hl) hb hasc.2 m
      rw [hc] at this
      simpa [cacheRun, List.take_succ_cons] using this

/-- Abbreviation: the `set` operations inserting the given
(time, key, value) triples with the default TTL. -/
def setOpsOf (l : List (ℤ × String × α)) : List (ℤ × CacheOp α) :=
  l.map fun x => (x.1, CacheOp.setOp x.2.1 x.2.2 none)

/-- Abbreviation: the entries those `set` operations create. -/
def setEntriesOf (ttlMs : ℤ) (l : List (ℤ × String × α)) :
    List (String × CacheEntry α) :=
  l.map fun x => (x.2.1, CacheEntry.mk x.2.2 (x.1 + ttlMs) x.1)

theorem cacheRun_fresh_sets (triples : List (ℤ × String × α)) :
    ∀ st : CacheState α,
    (∀ x ∈ triples, ∀ q ∈ st.store, q.1 ≠ x.2.1) →
    (triples.map fun x => x.2.1).Nodup →
    st.store.length + triples.length ≤ st.config.maxEntries →
    cacheRun st (setOpsOf triples) =
      { st with store := st.store ++ setEntriesOf st.config.defaultTtlMs triples } := by
  induction triples with
  | nil =>
    intro st _ _ _
    simp [cacheRun, setOpsOf, setEntriesOf]
  | cons x rest ih =>
    intro st hfresh hnd hlen
    have hxk : x.2.1 ∉ st.store.map Prod.fst := by
      intro hmem
      obtain ⟨q, hq, hqk⟩ := List.mem_map.mp hmem
      exact hfresh x (by simp) q hq hqk
    have hcond : (decide (st.config.maxEntries ≠ 0) &&
        decide (st.store.length ≥ st.config.maxEntries)) = false := by
      have hno : ¬ st.store.length ≥ st.config.maxEntries := by
        simp only [List.length_cons] at hlen; omega
      simp [hno]
    have hstep : cacheStep st (x.1, CacheOp.setOp x.2.1 x.2.2 none) =
        { st with store := st.store ++ [(x.2.1, CacheEntry.mk x.2.2 (x.1 + st.config.defaultTtlMs) x.1)] } := by
      show InMemoryCacheAdapter.set x.1 x.2.1 x.2.2 ((none : Option ℤ).getD st.config.defaultTtlMs) st = _
      simp only [InMemoryCacheAdapter.set, hcond, Bool.false_eq_true, if_false, Option.getD_none]
      rw [mapSet_of_not_mem st.store x.2.1 _ hxk]
    have hnd2 : (x.2.1 :: rest.map fun y => y.2.1).Nodup := by
      simpa only [List.map_cons] using hnd
    have hndx : x.2.1 ∉ rest.map fun y => y.2.1 := (List.nodup_cons.mp hnd2).1
    have hnd' : (rest.map fun y => y.2.1).Nodup := (List.nodup_cons.mp hnd2).2
    simp only [setOpsOf, List.map_cons, cacheRun, List.foldl_cons]
    rw [show List.foldl cacheStep (cacheStep st (x.1, CacheOp.setOp x.2.1 x.2.2 none))
          (rest.map fun y => (y.1, CacheOp.setOp y.2.1 y.2.2 none)) =
        cacheRun (cacheStep st (x.1, CacheOp.setOp x.2.1 x.2.2 none)) (setOpsOf rest) from rfl]
    rw [hstep]
    rw [ih _ ?_ hnd' ?_]
    · simp [setEntriesOf, List.append_assoc]
    · intro y hy q hq
      rcases List.mem_append.mp hq with hq1 | hq1
      · exact hfresh y (by simp [hy]) q hq1
      · have : q.1 = x.2.1 := by
          rcases List.mem_singleton.mp hq1 with rfl
          rfl
        rw [this]
        intro hxy
        exact hndx (hxy ▸ List.mem_map.mpr ⟨y, hy, rfl⟩)
    · simp only [List.length_append, List.length_singleton]
      simp only [List.length_cons] at hlen
      omega

/-- C6 amended: for positive `maxEntries` and operations issued at strictly
increasing timestamps, the store size never exceeds the configured
`maxEntries` after any operation completes; and inserting `maxEntries + 1`
distinct keys via `set` evicts exactly the single entry with the earliest
`createdAt` (the first one inserted) while every other inserted entry
remains retrievable. The counterexample shows the unamended claim fails
when entries share the insertion timestamp: `evictOldestEntry` starts its
scan at `Date.now()` and only strictly smaller `createdAt`s are candidates,
so nothing is evicted and the size bound is broken. -/
theorem cache_size_bound_and_oldest_eviction (p : CacheConfigPatch)
    (hmax : 1 ≤ (mergeCacheConfig DEFAULT_CACHE_CONFIG p).maxEntries) :
    (∀ (t0 : ℤ) (ops : List (ℤ × CacheOp ℤ)),
        ascendingFrom t0 (ops.map Prod.fst) = true →
        ∀ n : ℕ,
          (cacheRun (InMemoryCacheAdapter.init p) (ops.take n)).store.length ≤
            (mergeCacheConfig DEFAULT_CACHE_CONFIG p).maxEntries)
    ∧ (∀ (t0 : ℤ) (first lastT : ℤ × String × ℤ) (mid : List (ℤ × String × ℤ)),
        mid.length + 1 = (mergeCacheConfig DEFAULT_CACHE_CONFIG p).maxEntries →
        ((first :: mid ++ [lastT]).map fun x => x.2.1).Nodup →
        ascendingFrom t0 ((first :: mid ++ [lastT]).map Prod.fst) = true →
        (cacheRun (InMemoryCacheAdapter.init p) (setOpsOf (first :: mid ++ [lastT]))).store =
          setEntriesOf (mergeCacheConfig DEFAULT_CACHE_CONFIG p).defaultTtlMs (mid ++ [lastT])
        ∧ mapGet (cacheRun (InMemoryCacheAdapter.init p)
            (setOpsOf (first :: mid ++ [lastT]))).store first.2.1 = none
        ∧ ∀ x ∈ mid ++ [lastT],
            mapGet (cacheRun (InMemoryCacheAdapter.init p)
              (setOpsOf (first :: mid ++ [lastT]))).store x.2.1 =
              some (CacheEntry.mk x.2.2
                (x.1 + (mergeCacheConfig DEFAULT_CACHE_CONFIG p).defaultTtlMs) x.1)) := by
  constructor
  · intro t0 ops hasc n
    exact cacheRun_size_invariant ops (InMemoryCacheAdapter.init p) t0 hmax
      (Nat.zero_le _) (by intro q hq; simp [InMemoryCacheAdapter.init] at hq) hasc n
  · intro t0 first lastT mid hlen hnd hasc
    have hndall : (first.2.1 :: (mid ++ [lastT]).map fun x => x.2.1).Nodup := by
      simpa only [List.map_cons] using hnd
    have hfirstNot : first.2.1 ∉ (mid ++ [lastT]).map fun x => x.2.1 :=
      (List.nodup_cons.mp hndall).1
    have hndTail : ((mid ++ [lastT]).map fun x => x.2.1).Nodup :=
      (List.nodup_cons.mp hndall).2
    have hfirstNotMid : first.2.1 ∉ mid.map fun x => x.2.1 := by
      intro h
      exact hfirstNot (by rw [List.map_append]; exact List.mem_append.mpr (Or.inl h))
    have hndSplit := (List.nodup_append.mp (by simpa only [List.map_append] using hndTail))
    have hmidNd : (mid.map fun x => x.2.1).Nodup := hndSplit.1
    have hlastNotMid : lastT.2.1 ∉ mid.map fun x => x.2.1 := by
      intro h
      exact hndSplit.2.2 h (List.mem_singleton.mpr rfl)
    have hasc2 : t0 < first.1 ∧
        ascendingFrom first.1 (mid.map Prod.fst ++ [lastT.1]) = true := by
      rw [show (first :: mid ++ [lastT]).map Prod.fst =
          first.1 :: (mid.map Prod.fst ++ [lastT.1]) by simp] at hasc
      simpa only [ascendingFrom, Bool.and_eq_true, decide_eq_true_eq] using hasc
    have hfl : ∀ τ ∈ mid.map Prod.fst ++ [lastT.1], first.1 < τ :=
      ascendingFrom_lt_all _ first.1 hasc2.2
    have hflast : first.1 < lastT.1 :=
      hfl lastT.1 (List.mem_append.mpr (Or.inr (List.mem_singleton.mpr rfl)))
    have hfmid : ∀ y ∈ mid, first.1 < y.1 :=
      fun y hy => hfl y.1 (List.mem_append.mpr (Or.inl (List.mem_map.mpr ⟨y, hy, rfl⟩)))
    have hphase := cacheRun_fresh_sets (first :: mid) (InMemoryCacheAdapter.init p)
      (by intro x _ q hq; simp [InMemoryCacheAdapter.init] at hq)
      (by simp only [List.map_cons]
          exact List.nodup_cons.mpr ⟨hfirstNotMid, hmidNd⟩)
      (by simp only [InMemoryCacheAdapter.init, List.length_nil, List.length_cons]
          omega)
    have hsplitops : setOpsOf (α := ℤ) (first :: mid ++ [lastT]) =
        setOpsOf (first :: mid) ++ setOpsOf [lastT] := by
      simp [setOpsOf]
    have hrunsplit : cacheRun (InMemoryCacheAdapter.init p)
        (setOpsOf (α := ℤ) (first :: mid ++ [lastT])) =
        cacheRun (cacheRun (InMemoryCacheAdapter.init p) (setOpsOf (first :: mid)))
          (setOpsOf [lastT]) := by
      rw [hsplitops]
      simp [cacheRun, List.foldl_append]
    set ttl : ℤ := (mergeCacheConfig DEFAULT_CACHE_CONFIG p).defaultTtlMs with httl
    set e0 : CacheEntry ℤ := CacheEntry.mk first.2.2 (first.1 + ttl) first.1 with he0
    have hstA : cacheRun (InMemoryCacheAdapter.init p) (setOpsOf (first :: mid)) =
        { InMemoryCacheAdapter.init (α := ℤ) p with
          store := (first.2.1, e0) :: setEntriesOf ttl mid } := by
      rw [hphase]
      simp [InMemoryCacheAdapter.init, setEntriesOf, he0, httl]
    have hstAlen : ((first.2.1, e0) :: setEntriesOf (α := ℤ) ttl mid).length =
        (mergeCacheConfig DEFAULT_CACHE_CONFIG p).maxEntries := by
      simp only [List.length_cons, setEntriesOf, List.length_map]
      omega
    have hmidKeys : (setEntriesOf (α := ℤ) ttl mid).map Prod.fst =
        mid.map fun x => x.2.1 := by
      simp [setEntriesOf, List.map_map]
    have hmidCreated : ∀ q ∈ setEntriesOf (α := ℤ) ttl mid,
        first.1 < q.2.createdAt := by
      intro q hq
      obtain ⟨y, hy, rfl⟩ := List.mem_map.mp hq
      exact hfmid y hy
    have hfind : InMemoryCacheAdapter.findOldestKey lastT.1
        ((first.2.1, e0) :: setEntriesOf ttl mid) = some first.2.1 := by
      have := findOldestKey_unique_min lastT.1 [] (setEntriesOf ttl mid)
        first.2.1 e0 (by rw [he0]; exact hflast)
        (by intro q hq
            simp only [List.nil_append] at hq
            rw [he0]
            exact hmidCreated q hq)
      simpa using this
    have hdel : mapDelete ((first.2.1, e0) :: setEntriesOf (α := ℤ) ttl mid) first.2.1 =
        setEntriesOf ttl mid := by
      have := mapDelete_middle [] (setEntriesOf (α := ℤ) ttl mid) first.2.1 e0
        (by intro q hq; simp at hq)
        (by intro q hq hq1
            apply hfirstNotMid
            rw [← hq1, ← hmidKeys]
            exact List.mem_map.mpr ⟨q, hq, rfl⟩)
      simpa using this
    have hlastNotKeys : lastT.2.1 ∉ (setEntriesOf (α := ℤ) ttl mid).map Prod.fst := by
      rw [hmidKeys]; exact hlastNotMid
    have hsetfull : ∀ st : CacheState ℤ, ∀ now : ℤ, ∀ k : String, ∀ v : ℤ, ∀ t1 : ℤ,
        st.config.maxEntries ≠ 0 → st.store.length ≥ st.config.maxEntries →
        InMemoryCacheAdapter.set now k v t1 st =
          { st with store := mapSet (InMemoryCacheAdapter.evictOldestEntry now st.store) k (CacheEntry.mk v (now + t1) now) } := by
      intro st now k v t1 h1 h2
      simp only [InMemoryCacheAdapter.set]
      rw [if_pos ((Bool.and_eq_true _ _).mpr ⟨decide_eq_true h1, decide_eq_true h2⟩)]
    have hfinalstore : (cacheRun (InMemoryCacheAdapter.init p)
        (setOpsOf (α := ℤ) (first :: mid ++ [lastT]))).store =
        setEntriesOf ttl (mid ++ [lastT]) := by
      rw [hrunsplit, hstA]
      show (cacheStep _ (lastT.1, CacheOp.setOp lastT.2.1 lastT.2.2 none)).store = _
      rw [show cacheStep { InMemoryCacheAdapter.init (α := ℤ) p with
            store := (first.2.1, e0) :: setEntriesOf ttl mid }
            (lastT.1, CacheOp.setOp lastT.2.1 lastT.2.2 none) =
          InMemoryCacheAdapter.set lastT.1 lastT.2.1 lastT.2.2 ttl
            { InMemoryCacheAdapter.init (α := ℤ) p with
              store := (first.2.1, e0) :: setEntriesOf ttl mid } from rfl]
      rw [hsetfull _ lastT.1 lastT.2.1 lastT.2.2 ttl
        (by show (mergeCacheConfig DEFAULT_CACHE_CONFIG p).maxEntries ≠ 0; omega)
        (by show ((first.2.1, e0) :: setEntriesOf ttl mid).length ≥
              (mergeCacheConfig DEFAULT_CACHE_CONFIG p).maxEntries
            exact ge_of_eq hstAlen)]
      show mapSet (InMemoryCacheAdapter.evictOldestEntry lastT.1
          ((first.2.1, e0) :: setEntriesOf ttl mid)) lastT.2.1
          (CacheEntry.mk lastT.2.2 (lastT.1 + ttl) lastT.1) = _
      rw [show InMemoryCacheAdapter.evictOldestEntry lastT.1
            ((first.2.1, e0) :: setEntriesOf ttl mid) =
          setEntriesOf ttl mid by
        unfold InMemoryCacheAdapter.evictOldestEntry
        rw [hfind]
        exact hdel]
      rw [mapSet_of_not_mem _ _ _ hlastNotKeys]
      simp [setEntriesOf]
    refine ⟨hfinalstore, ?_, ?_⟩
    · rw [hfinalstore]
      apply (mapGet_eq_none_iff _ _).mpr
      rw [show (setEntriesOf (α := ℤ) ttl (mid ++ [lastT])).map Prod.fst =
          (mid ++ [lastT]).map fun x => x.2.1 by
        simp [setEntriesOf, List.map_map]]
      exact hfirstNot
    · intro x hx
      rw [hfinalstore]
      apply mapGet_of_nodup
      · rw [show (setEntriesOf (α := ℤ) ttl (mid ++ [lastT])).map Prod.fst =
            (mid ++ [lastT]).map fun x => x.2.1 by
          simp [setEntriesOf, List.map_map]]
        exact hndTail
      · exact List.mem_map.mpr ⟨x, hx, rfl⟩

/-- C6 counterexample: with `maxEntries = 1`, two `set`s of distinct keys at
the same `Date.now()` timestamp leave 2 entries in the store. At the second
insert, `evictOldestEntry` starts its scan at `oldestTime = Date.now()` and
only a strictly smaller `createdAt` can be selected, so nothing is evicted
and the store grows past the configured maximum. -/
theorem cache_size_bound_counterexample :
    ¬ ((cacheRun (InMemoryCacheAdapter.init (α := ℤ) { maxEntries := some 1 })
          [(100, CacheOp.setOp "k1" 0 none), (100, CacheOp.setOp "k2" 0 none)]).store.length ≤
        (cacheRun (InMemoryCacheAdapter.init (α := ℤ) { maxEntries := some 1 })
          [(100, CacheOp.setOp "k1" 0 none), (100, CacheOp.setOp "k2" 0 none)]).config.maxEntries) := by
  decide

/-- A small benign operation sequence for the C6 witness. -/
def cacheOpsWitness : List (ℤ × CacheOp ℤ) :=
  [(1, CacheOp.setOp "a" 5 none), (2, CacheOp.setOp "b" 6 none),
   (3, CacheOp.setOp "c" 7 none), (4, CacheOp.getOp "a"), (5, CacheOp.delOp "b")]

theorem cache_size_bound_and_oldest_eviction_witness :
    ((cacheRun (InMemoryCacheAdapter.init (α := ℤ) { maxEntries := some 2 })
        (cacheOpsWitness.take 5)).store.length ≤
      (mergeCacheConfig DEFAULT_CACHE_CONFIG { maxEntries := some 2 }).maxEntries)
    ∧ (cacheRun (InMemoryCacheAdapter.init (α := ℤ) { maxEntries := some 2 })
        (setOpsOf ((10, "a", (0 : ℤ)) :: [(20, "b", 1)] ++ [(30, "c", 2)]))).store =
      setEntriesOf (mergeCacheConfig DEFAULT_CACHE_CONFIG { maxEntries := some 2 }).defaultTtlMs
        ([(20, "b", 1)] ++ [(30, "c", 2)]) := by
  have h := cache_size_bound_and_oldest_eviction { maxEntries := some 2 } (by decide)
  refine ⟨h.1 0 cacheOpsWitness (by decide) 5, ?_⟩
  exact (h.2 0 (10, "a", 0) (30, "c", 2) [(20, "b", 1)] (by decide) (by decide) (by decide)).1

theorem set_on_full (st : CacheState α) (now : ℤ) (k : String) (v : α) (t1 : ℤ)
    (h1 : st.config.maxEntries ≠ 0) (h2 : st.store.length ≥ st.config.maxEntries) :
    InMemoryCacheAdapter.set now k v t1 st =
      { st with store := mapSet (InMemoryCacheAdapter.evictOldestEntry now st.store) k (CacheEntry.mk v (now + t1) now) } := by
  simp only [InMemoryCacheAdapter.set]
  rw [if_pos ((Bool.and_eq_true _ _).mpr ⟨decide_eq_true h1, decide_eq_true h2⟩)]

theorem mapSet_keys (st : List (String × CacheEntry α)) (k : String)
    (e : CacheEntry α) (h : k ∈ st.map Prod.fst) :
    (mapSet st k e).map Prod.fst = st.map Prod.fst := by
  unfold mapSet
  rw [if_pos ((anyKey_iff st k).mpr h), List.map_map]
  apply List.map_congr_left
  intro p _
  by_cases hp : p.1 = k
  · simp [hp]
  · simp [hp]

/-- C10 counterexample: with `maxEntries = 1` and the store holding only
`"a"` (created strictly earlier), `set` of the existing key `"a"` on the
full cache evicts `"a"` itself — no different entry is removed and the
store size does not decrease. -/
theorem cache_update_existing_counterexample :
    (InMemoryCacheAdapter.set 100 "a" 7 1000
        (CacheState.mk [("a", CacheEntry.mk (1 : ℤ) 1050 50)]
          (CacheConfig.mk 300000 1 true) 0 0 0)).store =
      [("a", CacheEntry.mk 7 1100 100)]
    ∧ (InMemoryCacheAdapter.set 100 "a" 7 1000
        (CacheState.mk [("a", CacheEntry.mk (1 : ℤ) 1050 50)]
          (CacheConfig.mk 300000 1 true) 0 0 0)).store.length = 1 := by
  decide

/-- C10 amended: eviction on `set` is triggered by store size alone — even
when the inserted key `k` is already present in a full store, the entry
with the strictly-oldest `createdAt` is evicted first; when that entry is a
key other than `k`, a different entry is removed, `k` is overwritten in
place, and the store size decreases by one. (The counterexample shows the
original claim's "removes a different entry" fails when `k` itself holds
the oldest `createdAt`.) -/
theorem cache_eviction_by_size_alone (st : CacheState ℤ) (now : ℤ)
    (k k0 : String) (v : ℤ) (ttl : ℤ)
    (pre post : List (String × CacheEntry ℤ)) (e0 : CacheEntry ℤ)
    (hstore : st.store = pre ++ (k0, e0) :: post)
    (hmaxne : st.config.maxEntries ≠ 0)
    (hfull : st.store.length ≥ st.config.maxEntries)
    (hmin : ∀ q ∈ pre ++ post, e0.createdAt < q.2.createdAt)
    (hnow : e0.createdAt < now)
    (hnd : (st.store.map Prod.fst).Nodup)
    (hk : k ∈ st.store.map Prod.fst) (hkne : k ≠ k0) :
    (InMemoryCacheAdapter.set now k v ttl st).store.length = st.store.length - 1
    ∧ mapGet (InMemoryCacheAdapter.set now k v ttl st).store k0 = none
    ∧ mapGet (InMemoryCacheAdapter.set now k v ttl st).store k =
        some (CacheEntry.mk v (now + ttl) now) := by
  have hnd' : (pre.map Prod.fst ++ k0 :: post.map Prod.fst).Nodup := by
    simpa [hstore, List.map_append] using hnd
  obtain ⟨hndpre, hndrest, hdisj⟩ := List.nodup_append.mp hnd'
  have hk0post : k0 ∉ post.map Prod.fst := (List.nodup_cons.mp hndrest).1
  have hprene : ∀ q ∈ pre, q.1 ≠ k0 := by
    intro q hq hqk
    exact hdisj (List.mem_map.mpr ⟨q, hq, hqk⟩) (List.mem_cons_self _ _)
  have hpostne : ∀ q ∈ post, q.1 ≠ k0 := by
    intro q hq hqk
    exact hk0post (hqk ▸ List.mem_map.mpr ⟨q, hq, rfl⟩)
  have hfind : InMemoryCacheAdapter.findOldestKey now st.store = some k0 := by
    rw [hstore]
    exact findOldestKey_unique_min now pre post k0 e0 hnow hmin
  have hev : InMemoryCacheAdapter.evictOldestEntry now st.store = pre ++ post := by
    unfold InMemoryCacheAdapter.evictOldestEntry
    rw [hfind]
    show mapDelete st.store k0 = pre ++ post
    rw [hstore]
    exact mapDelete_middle pre post k0 e0 hprene hpostne
  have hkmem : k ∈ (pre ++ post).map Prod.fst := by
    have hk2 : k ∈ pre.map Prod.fst ++ k0 :: post.map Prod.fst := by
      have hk3 := hk
      rw [hstore] at hk3
      simpa [List.map_append] using hk3
    rw [List.map_append]
    rcases List.mem_append.mp hk2 with h1 | h1
    · exact List.mem_append.mpr (Or.inl h1)
    · rcases List.mem_cons.mp h1 with h2 | h2
      · exact absurd h2 hkne
      · exact List.mem_append.mpr (Or.inr h2)
  rw [set_on_full st now k v ttl hmaxne hfull]
  rw [show ({ st with store := mapSet (InMemoryCacheAdapter.evictOldestEntry now st.store) k (CacheEntry.mk v (now + ttl) now) } : CacheState ℤ).store = mapSet (InMemoryCacheAdapter.evictOldestEntry now st.store) k (CacheEntry.mk v (now + ttl) now) from rfl]
  rw [hev]
  refine ⟨?_, ?_, mapGet_mapSet_self _ _ _⟩
  · rw [length_mapSet_of_mem _ _ _ hkmem, hstore]
    simp only [List.length_append, List.length_cons]
    omega
  · apply (mapGet_eq_none_iff _ _).mpr
    rw [mapSet_keys _ _ _ hkmem, List.map_append]
    intro hmem
    rcases List.mem_append.mp hmem with h1 | h1
    · obtain ⟨q, hq, hqk⟩ := List.mem_map.mp h1
      exact hprene q hq hqk
    · obtain ⟨q, hq, hqk⟩ := List.mem_map.mp h1
      exact hpostne q hq hqk

theorem cache_eviction_by_size_alone_witness :
    (InMemoryCacheAdapter.set 30 "b" 9 1000
        (CacheState.mk [("a", CacheEntry.mk (1 : ℤ) 1010 10), ("b", CacheEntry.mk 2 1020 20)]
          (CacheConfig.mk 300000 2 true) 0 0 0)).store.length = 1
    ∧ mapGet (InMemoryCacheAdapter.set 30 "b" 9 1000
        (CacheState.mk [("a", CacheEntry.mk (1 : ℤ) 1010 10), ("b", CacheEntry.mk 2 1020 20)]
          (CacheConfig.mk 300000 2 true) 0 0 0)).store "a" = none
    ∧ mapGet (InMemoryCacheAdapter.set 30 "b" 9 1000
        (CacheState.mk [("a", CacheEntry.mk (1 : ℤ) 1010 10), ("b", CacheEntry.mk 2 1020 20)]
          (CacheConfig.mk 300000 2 true) 0 0 0)).store "b" =
      some (CacheEntry.mk 9 1030 30) := by
  have h := cache_eviction_by_size_alone
    (CacheState.mk [("a", CacheEntry.mk (1 : ℤ) 1010 10), ("b", CacheEntry.mk 2 1020 20)]
      (CacheConfig.mk 300000 2 true) 0 0 0)
    30 "b" "a" 9 1000 [] [("b", CacheEntry.mk 2 1020 20)] (CacheEntry.mk 1 1010 10)
    rfl (by decide) (by decide) (by decide) (by decide) (by decide) (by decide)
    (by decide)
  simpa using h

/-- The accepted location representations (types/index.ts `Location`):
an address string, a `{lat, lng}` object, or a `[lat, lng]` tuple.
Coordinates are modelled as integers (JavaScript renders safe integers in
plain decimal, which is all the counterexamples need). -/
inductive Location where
  | str (s : String)
  | coords (lat lng : ℤ)
  | pair (lat lng : ℤ)
deriving DecidableEq, Repr

/-- JavaScript `String(location)`: a string is itself; a plain object
stringifies to `"[object Object]"`; an array joins its elements with a
comma. This is what `generateCacheKey` applies to `origin`/`destination`
and (inside `Array.join`) to each waypoint. -/
def jsLocString : Location → String
  | .str s => s
  | .coords _ _ => "[object Object]"
  | .pair a b => toString a ++ "," ++ toString b

/-- `RoutesClient.formatLocation` (routesClient.ts lines 185-193), used for
request URLs: strings pass through, both coordinate representations are
rendered as `"lat,lng"`. -/
def formatLocation : Location → String
  | .str s => s
  | .coords lat lng => toString lat ++ "," ++ toString lng
  | .pair a b => toString a ++ "," ++ toString b

/-- `TravelMode` (types/index.ts). -/
inductive TravelMode where
  | DRIVING | WALKING | BICYCLING | TRANSIT
deriving DecidableEq, Repr

/-- The string value of a `TravelMode` enum member. -/
def travelModeString : TravelMode → String
  | .DRIVING => "DRIVING"
  | .WALKING => "WALKING"
  | .BICYCLING => "BICYCLING"
  | .TRANSIT => "TRANSIT"

/-- `GetRouteOptions` (types/index.ts) after validation, which passes
values through unchanged. -/
structure GetRouteOptions where
  origin : Location
  destination : Location
  travelMode : Option TravelMode := none
  waypoints : Option (List Location) := none
  avoidHighways : Option Bool := none
  avoidTolls : Option Bool := none
  avoidFerries : Option Bool := none
  optimizeWaypoints : Option Bool := none
deriving DecidableEq, Repr

namespace RoutesClient

/-- The `b ? '1' : '0'` rendering of an optional boolean flag (absent and
`false` are both falsy). -/
def flag01 (b : Option Bool) : String := if b = some true then "1" else "0"

/-- `RoutesClient.generateCacheKey` (routesClient.ts lines 274-300):
`routes:` followed by the key parts joined with `:`. Locations go through
JavaScript `String(...)` (not `formatLocation`), waypoints through
`Array.join(',')` (an empty array is truthy and joins to `''`, matching the
absent case), booleans become `1`/`0`. -/
def generateCacheKey (operation : String) (o : GetRouteOptions) : String :=
  let keyParts : List String :=
    [operation,
     jsLocString o.origin,
     jsLocString o.destination,
     (o.travelMode.map travelModeString).getD "",
     (match o.waypoints with
      | some ws => String.intercalate "," (ws.map jsLocString)
      | none => ""),
     flag01 o.avoidHighways,
     flag01 o.avoidTolls,
     flag01 o.avoidFerries,
     flag01 o.optimizeWaypoints]
  "routes:" ++ String.intercalate ":" keyParts

end RoutesClient

/-- C1 (code bug): `generateCacheKey` renders every `{lat, lng}` object via
JavaScript `String(...)` as the constant `"[object Object]"` instead of
using `formatLocation`. Consequently (1) two requests that differ only in
their coordinate-object origins — semantically different requests — collide
on the same cache key, and (2) the same location written as a string versus
as a coordinate object produces different keys. Both directions of the
claimed determinism/field-sensitivity contract fail, while the URL-building
`formatLocation` normalizes exactly as the claim expects. -/
theorem cache_key_object_collision :
    RoutesClient.generateCacheKey "route"
        { origin := Location.coords 1 2, destination := Location.str "X" } =
      RoutesClient.generateCacheKey "route"
        { origin := Location.coords 3 4, destination := Location.str "X" }
    ∧ RoutesClient.generateCacheKey "route"
        { origin := Location.str "1,2", destination := Location.str "X" } ≠
      RoutesClient.generateCacheKey "route"
        { origin := Location.coords 1 2, destination := Location.str "X" }
    ∧ formatLocation (Location.str "1,2") = formatLocation (Location.coords 1 2) := by
  decide

/-- A `RoutesError` (errors.ts): message, machine code, HTTP-ish status,
and the `meta.timeoutMs` field carried by timeout errors. -/
structure RoutesErr where
  message : String
  code : String
  status : Int
  timeoutMsMeta : Option ℤ := none
deriving DecidableEq, Repr

namespace RoutesError

/-- `RoutesError.network` (status 0). -/
def network (message : String) : RoutesErr :=
  ⟨message, "NETWORK_ERROR", 0, none⟩

/-- `RoutesError.timeout` (status 408, carries `timeoutMs` in `meta`). -/
def timeout (timeoutMs : ℤ) : RoutesErr :=
  ⟨"Request timed out after " ++ toString timeoutMs ++ "ms",
   "TIMEOUT_ERROR", 408, some timeoutMs⟩

/-- `RoutesError.fromHttpResponse` (errors.ts lines 42-81): status-to-code
mapping, with message overrides for 401/403/429. -/
def fromHttpResponse (status : Int) (message : String) : RoutesErr :=
  if status = 400 then ⟨message, "INVALID_REQUEST", status, none⟩
  else if status = 401 then
    ⟨"Invalid API key or authentication failed", "UNAUTHORIZED", status, none⟩
  else if status = 403 then
    ⟨"API key does not have permission to access this resource", "FORBIDDEN", status, none⟩
  else if status = 404 then ⟨message, "NOT_FOUND", status, none⟩
  else if status = 429 then
    ⟨"Rate limit exceeded. Please try again later", "RATE_LIMITED", status, none⟩
  else if status = 500 then ⟨message, "SERVER_ERROR", status, none⟩
  else if status = 502 ∨ status = 503 ∨ status = 504 then
    ⟨message, "SERVICE_UNAVAILABLE", status, none⟩
  else ⟨message, "HTTP_ERROR", status, none⟩

end RoutesError

/-- A thrown JavaScript value as the executor's `catch` sees it: either a
`RoutesError` (rethrown as-is) or a plain `Error` carrying only a message. -/
inductive Thrown where
  | routes (e : RoutesErr)
  | js (message : String)
deriving DecidableEq, Repr

/-- An HTTP response as delivered by the transport adapter. -/
structure HttpResponse (β : Type) where
  status : Int
  body : β
deriving DecidableEq, Repr

namespace RoutesClient

/-- The message of the rejection produced by `sendRequestWithTimeout`'s
timer (routesClient.ts line 201): note it says `"timed out"`, with a space. -/
def timerRejectionMessage (timeoutMs : ℤ) : String :=
  "Request timed out after " ++ toString timeoutMs ++ "ms"

/-- `sendRequestWithTimeout` (routesClient.ts lines 198-208):
`Promise.race` of the transport call against the timeout timer. The
transport call is modelled by its settle time and outcome; whichever
settles first wins (a tie is resolved in the timer's favour, which only
matters at the exact boundary). -/
def sendRequestWithTimeout (timeoutMs settleMs : ℤ)
    (transport : Except Thrown (HttpResponse β)) : Except Thrown (HttpResponse β) :=
  if settleMs < timeoutMs then transport
  else Except.error (Thrown.js (timerRejectionMessage timeoutMs))

/-- The `catch` clause shared verbatim by `executeRouteRequest`,
`executeDistanceMatrixRequest` and `executeSnapToRoadsRequest`
(routesClient.ts lines 119-133, 464-478, 510-524): a `RoutesError` is
rethrown unchanged; any other `Error` whose message contains the substring
`"timeout"` becomes `RoutesError.timeout(timeoutMs)`; everything else
becomes `RoutesError.network(message)`. -/
def catchClassify (timeoutMs : ℤ) : Thrown → RoutesErr
  | .routes e => e
  | .js m =>
    if jsIncludes m "timeout" then RoutesError.timeout timeoutMs
    else RoutesError.network m

/-- The shared body of the three `execute*Request` methods: send with
timeout, turn any status ≥ 400 into `RoutesError.fromHttpResponse`, and
classify anything thrown via the `catch` clause. (Response-body parsing is
input-shape validation outside the modelled core; the parsed result is the
body itself.) -/
def executeRequest (timeoutMs settleMs : ℤ)
    (transport : Except Thrown (HttpResponse β)) : Except RoutesErr β :=
  match sendRequestWithTimeout timeoutMs settleMs transport with
  | .ok res =>
    if res.status ≥ 400 then
      .error (catchClassify timeoutMs
        (.routes (RoutesError.fromHttpResponse res.status "API request failed")))
    else .ok res.body
  | .error th => .error (catchClassify timeoutMs th)

end RoutesClient

/-- C7 (code bug): when the transport loses the race against the timeout
timer, the timer's rejection message is `"Request timed out after ...ms"` —
which does not contain the substring `"timeout"` that the catch clause
checks for (`"timed out"` has a space). The caller therefore receives
`NetworkError` with status 0, not the claimed `TimeoutError(status=408,
timeoutMs)`; `RoutesError.timeout` (which does carry status 408 and
`timeoutMs`) is never reached on this path. Evaluated at timeoutMs=30000
with the transport settling at 40000. -/
theorem timeout_race_yields_network_error :
    RoutesClient.executeRequest (β := ℤ) 30000 40000 (Except.ok ⟨200, 0⟩) =
      Except.error (RoutesError.network "Request timed out after 30000ms")
    ∧ (RoutesError.network "Request timed out after 30000ms").status = 0
    ∧ (RoutesError.network "Request timed out after 30000ms").status ≠ 408
    ∧ (RoutesError.network "Request timed out after 30000ms").timeoutMsMeta = none
    ∧ (RoutesError.timeout 30000).status = 408
    ∧ (RoutesError.timeout 30000).timeoutMsMeta = some 30000 := by
  refine ⟨?_, rfl, by decide, rfl, rfl, rfl⟩
  rfl

/-- Per-request cache options (`cacheOptions` of getRoute /
getDistanceMatrix / snapToRoads). -/
structure CacheOpts where
  bypassCache : Bool := false
  forceRefresh : Bool := false
  ttlMs : Option ℤ := none
deriving DecidableEq, Repr

/-- The collaborator state one `RoutesClient` instance owns: its
`RateLimiter`, its optional cache adapter (`hasCache` mirrors
`this.cacheAdapter` being set), and instrumentation counters for the frame
claim — how many times the transport was invoked and how many times
`RetryStrategy.execute` was entered. -/
structure ClientState (α : Type) where
  rl : RateLimiterState
  cache : CacheState α
  hasCache : Bool
  transportCalls : ℕ
  retryCalls : ℕ
deriving DecidableEq, Repr

/-- The rate-limit rejection thrown by the orchestrator
(`RoutesError.fromHttpResponse(429, ...)`), as the `JsError` the caller
sees. -/
def rateLimitedError : JsError :=
  ⟨"Rate limit exceeded. Please try again later", some 429⟩

namespace RoutesClient

/-- The miss path shared by getRoute / getDistanceMatrix / snapToRoads
(routesClient.ts lines 70-87, 370-387, 414-431): acquire one token (fail
fast with the 429 error if denied), run the transport call under
`RetryStrategy.execute`, and on success write the result into the cache
with `cacheOptions?.ttlMs || 300000` (a ttl of 0 is falsy and falls back to
the default). The wrapped transport call is modelled by its per-invocation
outcome list; `transportCalls` advances by the number of invocations
`execute` consumed and `retryCalls` by one. -/
def requestFlowMiss (retryCfg : RetryConfig) (now : ℤ) (key : String)
    (copts : CacheOpts) (attempts : List (Except JsError α))
    (st : ClientState α) : Option (Except JsError α) × ClientState α :=
  let a := RateLimiter.acquire now 1 st.rl
  if a.1 then
    let r := RetryStrategy.execute retryCfg attempts
    let st1 : ClientState α :=
      { st with rl := a.2, transportCalls := st.transportCalls + r.2.1,
                retryCalls := st.retryCalls + 1 }
    match r.1 with
    | some (Except.ok v) =>
      if st1.hasCache then
        let ttl : ℤ :=
          match copts.ttlMs with
          | some t => if t = 0 then 300000 else t
          | none => 300000
        (r.1, { st1 with cache := InMemoryCacheAdapter.set now key v ttl st1.cache })
      else (r.1, st1)
    | _ => (r.1, st1)
  else (some (Except.error rateLimitedError), { st with rl := a.2 })

/-- The common request flow of getRoute (routesClient.ts lines 52-88),
getDistanceMatrix (352-388) and snapToRoads (397-433), which differ only in
how `key` and the transport call are built: compute the cache key, consult
the cache unless bypassed or force-refreshed, return a hit immediately, and
otherwise take the miss path. -/
def requestFlow (retryCfg : RetryConfig) (now : ℤ) (key : String)
    (copts : CacheOpts) (attempts : List (Except JsError α))
    (st : ClientState α) : Option (Except JsError α) × ClientState α :=
  if st.hasCache && !copts.bypassCache && !copts.forceRefresh then
    let g := InMemoryCacheAdapter.get now key st.cache
    match g.1 with
    | some v => (some (Except.ok v), { st with cache := g.2 })
    | none => requestFlowMiss retryCfg now key copts attempts { st with cache := g.2 }
  else requestFlowMiss retryCfg now key copts attempts st

end RoutesClient

/-- C8: when the cache holds an unexpired entry under the computed key and
the caller asked for neither bypass nor forced refresh, the request flow of
getRoute / getDistanceMatrix / snapToRoads returns the cached value with
the rate limiter's state (hence its token count) unchanged, the retry
strategy never invoked, and zero transport invocations. -/
theorem cache_hit_frame (retryCfg : RetryConfig) (now : ℤ) (key : String)
    (copts : CacheOpts) (attempts : List (Except JsError ℤ))
    (st : ClientState ℤ) (e : CacheEntry ℤ)
    (hc : st.hasCache = true)
    (hb : copts.bypassCache = false)
    (hf : copts.forceRefresh = false)
    (hent : mapGet st.cache.store key = some e)
    (hexp : ¬ now > e.expiresAt) :
    (RoutesClient.requestFlow retryCfg now key copts attempts st).1 =
      some (Except.ok e.value)
    ∧ (RoutesClient.requestFlow retryCfg now key copts attempts st).2.rl = st.rl
    ∧ (RoutesClient.requestFlow retryCfg now key copts attempts st).2.transportCalls =
        st.transportCalls
    ∧ (RoutesClient.requestFlow retryCfg now key copts attempts st).2.retryCalls =
        st.retryCalls := by
  have hget : (InMemoryCacheAdapter.get now key st.cache).1 = some e.value := by
    unfold InMemoryCacheAdapter.get
    rw [hent]
    dsimp only
    rw [if_neg hexp]
  unfold RoutesClient.requestFlow
  rw [if_pos (by rw [hc, hb, hf]; rfl)]
  dsimp only
  rw [hget]
  exact ⟨rfl, rfl, rfl, rfl⟩

/-- A concrete client state holding one fresh cache entry, for the C8
witness. -/
def clientStateWitness : ClientState ℤ where
  rl := RateLimiter.init {} 0
  cache :=
    { store := [("key1", CacheEntry.mk 42 1000 0)],
      config := mergeCacheConfig DEFAULT_CACHE_CONFIG {},
      hitCount := 0, missCount := 0, expiredCount := 0 }
  hasCache := true
  transportCalls := 0
  retryCalls := 0

theorem cache_hit_frame_witness :
    (RoutesClient.requestFlow DEFAULT_RETRY_CONFIG 500 "key1" {} []
        clientStateWitness).1 = some (Except.ok 42)
    ∧ (RoutesClient.requestFlow DEFAULT_RETRY_CONFIG 500 "key1" {} []
        clientStateWitness).2.rl = clientStateWitness.rl
    ∧ (RoutesClient.requestFlow DEFAULT_RETRY_CONFIG 500 "key1" {} []
        clientStateWitness).2.transportCalls = clientStateWitness.transportCalls
    ∧ (RoutesClient.requestFlow DEFAULT_RETRY_CONFIG 500 "key1" {} []
        clientStateWitness).2.retryCalls = clientStateWitness.retryCalls := by
  have h := cache_hit_frame DEFAULT_RETRY_CONFIG 500 "key1" {} []
    clientStateWitness (CacheEntry.mk 42 1000 0) rfl rfl rfl (by decide) (by decide)
  simpa using h
